import Mathlib

/-!
# Verification of the rust-ue-tools bundle-resolution and extraction pipeline

Shallow embedding of the orchestration core of the `rust-ue-tools` repository:
path utilities, error kinds, `AssetPath`, pak unpacking, utoc listing, and the
folder-scan orchestrator `extract_pak_asset_map_from_folder`, together with
theorems settling the specification claims.

Modelling conventions:
* File-system paths are plain strings with `/` as the separator (the Unix
  semantics of Rust's `Path`); `Path::components()` is modelled by splitting on
  `/` and discarding empty and `.` segments, which agrees with Rust on the
  clean relative paths manipulated by this program.
* The external collaborators (the repak pak reader, the retoc iostore reader,
  the file system, AES-key parsers) are fields of an explicit `Env` record;
  the embedded functions are parametrised by it.  Machinery the claims do not
  observe (directory creation, file writes, temp-dir allocation) is modelled
  as succeeding, as in an idealized file system.
* Rust's `to_lowercase`/`eq_ignore_ascii_case` are modelled by ASCII
  lowercasing (`Char.toLower`); they agree on the ASCII strings involved.
-/

namespace UeTools

/-- ASCII lowercasing of one character (`A`-`Z` only, as in Rust's
`eq_ignore_ascii_case`; it also matches `str::to_lowercase` on ASCII input). -/
def asciiLowerChar (c : Char) : Char :=
  if 'A' ≤ c ∧ c ≤ 'Z' then Char.ofNat (c.toNat + 32) else c

/-- ASCII lowercasing of a string. -/
def asciiLower (s : String) : String := ⟨s.data.map asciiLowerChar⟩

/-- Model of Rust's `str::eq_ignore_ascii_case`. -/
def eqIgnoreAsciiCase (a b : String) : Bool := asciiLower a == asciiLower b

/-- Split a character list at every occurrence of `sep` (the accumulator holds
the current field, reversed). -/
def splitOnCharAux (sep : Char) : List Char → List Char → List String
  | [], acc => [⟨acc.reverse⟩]
  | c :: cs, acc =>
    if c = sep then ⟨acc.reverse⟩ :: splitOnCharAux sep cs []
    else splitOnCharAux sep cs (c :: acc)

/-- `String.splitOn` for a one-character separator, as structural recursion
over the character list (so that concrete instances evaluate). -/
def splitOnChar (sep : Char) (s : String) : List String :=
  splitOnCharAux sep s.data []

/-- Single-character `str::replace`, as a character map. -/
def replaceChar (a b : Char) (s : String) : String :=
  ⟨s.data.map (fun c => if c = a then b else c)⟩

/-- `str::starts_with` / string prefix test over character lists. -/
def strIsPrefixOf (a b : String) : Bool := a.data.isPrefixOf b.data

/-- The character-list length of a string. -/
def strLen (s : String) : Nat := s.data.length

/-- Drop the first `n` characters of a string. -/
def strDrop (s : String) (n : Nat) : String := ⟨s.data.drop n⟩

/-- Model of `Path::components()`: the non-empty, non-`.` segments obtained by
splitting on `/`. -/
def pathComponents (p : String) : List String :=
  (splitOnChar '/' p).filter (fun c => !(c == "") && !(c == "."))

/-- Model of `Path::file_name()`: the last component, unless it is `..`. -/
def fileNameOf (p : String) : Option String :=
  match (pathComponents p).getLast? with
  | none => none
  | some c => if c = ".." then none else some c

/-- Extension of a bare file name per Rust's rules: the portion after the
final `.`, provided the portion before that `.` is non-empty. -/
def extOfName (name : String) : Option String :=
  let parts := splitOnChar '.' name
  if parts.length ≤ 1 then none
  else
    let stem := String.intercalate "." parts.dropLast
    if stem = "" then none else some (parts.getLastD "")

/-- Stem of a bare file name per Rust's rules: the portion before the final
`.` when an extension exists, otherwise the whole name. -/
def stemOfName (name : String) : String :=
  match extOfName name with
  | none => name
  | some _ => String.intercalate "." ((splitOnChar '.' name).dropLast)

/-- Model of `Path::extension()`. -/
def extensionOf (p : String) : Option String := (fileNameOf p).bind extOfName

/-- Model of `Path::file_stem()`. -/
def fileStemOf (p : String) : Option String := (fileNameOf p).map stemOfName

/-- Model of `Path::with_extension`: replace the extension of the final
component (re-rendered with `/` separators). -/
def withExtension (p e : String) : String :=
  match fileNameOf p with
  | none => p
  | some name =>
    let newName := if e = "" then stemOfName name else stemOfName name ++ "." ++ e
    String.intercalate "/" ((pathComponents p).dropLast ++ [newName])

/-- Model of `Path::join`: appending a relative path, or replacing by an
absolute one. -/
def joinPath (base rel : String) : String :=
  if strIsPrefixOf "/" rel then rel else base ++ "/" ++ rel

/-- The error enum of `src/error.rs` (`UeToolError`). -/
inductive UeToolError where
  | IoError (msg : String)
  | PakError (msg : String)
  | UtocError (msg : String)
  | CompressionError (msg : String)
  | EncryptionError (msg : String)
  | FileNotFound (path : String)
  | InvalidFormat (msg : String)
  | MissingFile (path : String)
  | InvalidAesKey (msg : String)
  | DeserializationError (msg : String)
  | SerializationError (msg : String)
  | JsonError (msg : String)
  | PermissionDenied (msg : String)
  | OutOfMemory
  | Internal (msg : String)
  | ExternalTool (msg : String)
  | InvalidArgument (msg : String)
  | Timeout
  | Cancelled
  | Other (msg : String)
deriving DecidableEq, Repr

/-- The `ArchiveType` enum of `src/lib.rs`. -/
inductive ArchiveType where
  | Zip
  | Rar
deriving DecidableEq, Repr

/-- `AssetPath` of `src/types.rs`: a wrapper around an interior path string. -/
structure AssetPath where
  val : String
deriving DecidableEq, Repr

/-- `AssetPath::new` (`Self(path.into())`). -/
def AssetPath.new (s : String) : AssetPath := ⟨s⟩

/-- `impl From<String> for AssetPath` (`Self(s)`). -/
def AssetPath.ofString (s : String) : AssetPath := ⟨s⟩

/-- `impl From<&str> for AssetPath` (`Self(s.to_string())`). -/
def AssetPath.ofStr (s : String) : AssetPath := ⟨s⟩

/-- `impl From<PathBuf> for AssetPath` (`Self(path.to_string_lossy().to_string())`,
the identity on valid UTF-8 paths, which strings model). -/
def AssetPath.ofPathBuf (s : String) : AssetPath := ⟨s⟩

/-- `PakUnpackOptions` of `src/types.rs`.  The `stripPfx` field models the
source's strip-prefix option. -/
structure PakUnpackOptions where
  aes_key : Option String
  stripPfx : String
  force : Bool
  quiet : Bool
  include_patterns : List String
deriving DecidableEq, Repr

/-- `UtocListOptions` of `src/types.rs`. -/
structure UtocListOptions where
  aes_key : Option String
  json_format : Bool
deriving DecidableEq, Repr

/-- `UnpackedFile` of `src/types.rs` (the `error` field, always `None` in the
source's construction, is omitted). -/
structure UnpackedFile where
  originalPath : AssetPath
  outputPath : String
  size : Nat
deriving DecidableEq, Repr

/-- A chunk record produced by the external iostore reader: an id and an
optional interior path (`retoc` chunk surface used by `utoc_list.rs`). -/
structure Chunk where
  id : String
  path : Option String
deriving DecidableEq, Repr

/-- An entry yielded by the recursive directory walk (`walkdir::WalkDir`). -/
structure WalkEntry where
  path : String
  isFile : Bool
deriving DecidableEq, Repr

/-- The external collaborators consumed by the pipeline, as an explicit
environment: file existence, the directory walker, the two AES key parsers
(repak's and retoc's), pak opening/listing, pak content reads, and iostore
opening.  Bytes are modelled as `List Nat`. -/
structure Env where
  fileExists : String → Bool
  walk : String → List WalkEntry
  parsePakAesKey : String → Option Nat
  parseUtocAesKey : String → Except String Nat
  fopenOk : String → Bool
  pakFiles : String → Option Nat → Except String (List String)
  pakRead : String → String → Except String (List Nat)
  iostoreOpen : String → List Nat → Except String (List Chunk)

/-- `Unpacker::detect_archive_type` of `src/lib.rs`. -/
def Unpacker.detectArchiveType (p : String) : Except UeToolError ArchiveType :=
  let ext := asciiLower ((extensionOf p).getD "")
  if ext = "zip" then .ok .Zip
  else if ext = "rar" then .ok .Rar
  else .error (.InvalidArgument ("Unsupported archive type: " ++ ext))

/-- The allow-listed asset extensions of `UtocLister::is_asset_file`. -/
def assetExtensions : List String :=
  ["uasset", "umap", "bnk", "json", "wem", "fbx", "obj", "glb", "gltf",
   "ini", "wav", "mp3", "ogg", "uplugin", "usf"]

/-- `UtocLister::is_asset_file` of `src/utoc_list.rs`: the lowercased
extension (empty when absent) is in the fixed allow-list. -/
def UtocLister.isAssetFile (path : String) : Bool :=
  let ext := asciiLower ((extensionOf path).getD "")
  assetExtensions.contains ext

/-- The interior-path collection loop of `UtocLister::list`: keep the paths of
chunks that carry one and pass `is_asset_file`. -/
def collectAssetPaths (chunks : List Chunk) : List String :=
  chunks.filterMap (fun c =>
    match c.path with
    | some p => if UtocLister.isAssetFile p then some p else none
    | none => none)

/-- Lexicographic less-or-equal on character lists, by code point (agrees
with Rust's byte-wise `Ord` on `String` for ASCII data, and with Lean's
`String` order in general — see `charListLe_iff_le`). -/
def charListLe : List Char → List Char → Bool
  | [], _ => true
  | _ :: _, [] => false
  | a :: as, b :: bs =>
    if a.toNat < b.toNat then true
    else if b.toNat < a.toNat then false
    else charListLe as bs

/-- The string comparison used by the model of `Vec::sort`. -/
def strLe (a b : String) : Prop := charListLe a.data b.data = true

instance : DecidableRel strLe := fun a b =>
  inferInstanceAs (Decidable (charListLe a.data b.data = true))

/-- Rust's stable `Vec::sort` on strings (by the total lexicographic order),
modelled by insertion sort, which computes the same sorted permutation. -/
def sortStrings (l : List String) : List String :=
  List.insertionSort strLe l

/-- Equality on `Except` values is decidable componentwise. -/
instance {ε α : Type} [DecidableEq ε] [DecidableEq α] : DecidableEq (Except ε α) := fun x y =>
  match x, y with
  | .ok a, .ok b =>
    if h : a = b then .isTrue (by rw [h]) else .isFalse (by simp [h])
  | .error a, .error b =>
    if h : a = b then .isTrue (by rw [h]) else .isFalse (by simp [h])
  | .ok _, .error _ => .isFalse (by simp)
  | .error _, .ok _ => .isFalse (by simp)

/-- Rust's `Vec::dedup`: remove consecutive duplicates. -/
def dedupConsec : List String → List String
  | [] => []
  | [a] => [a]
  | a :: b :: rest =>
    if a = b then dedupConsec (b :: rest) else a :: dedupConsec (b :: rest)

/-- The `sort(); dedup()` pair applied by `UtocLister::list`. -/
def sortedDedup (l : List String) : List String := dedupConsec (sortStrings l)

/-- The open-and-process part of `UtocLister::list`, after key resolution:
open the iostore, collect interior asset paths, sort and deduplicate. -/
def utocListOpened (env : Env) (utocPath : String) (keys : List Nat) :
    Except UeToolError (List AssetPath) :=
  match env.iostoreOpen utocPath keys with
  | .error e => .error (.UtocError ("Failed to open UTOC file: " ++ e))
  | .ok chunks => .ok ((sortedDedup (collectAssetPaths chunks)).map AssetPath.new)

/-- `UtocLister::list` of `src/utoc_list.rs`: existence check, AES key
resolution via retoc's parser, then open and process. -/
def UtocLister.list (env : Env) (utocPath : String) (o : UtocListOptions) :
    Except UeToolError (List AssetPath) :=
  if !(env.fileExists utocPath) then .error (.FileNotFound utocPath)
  else
    match o.aes_key with
    | some k =>
      match env.parseUtocAesKey k with
      | .ok key => utocListOpened env utocPath [key]
      | .error e => .error (.InvalidAesKey ("Invalid AES key: " ++ e))
    | none => utocListOpened env utocPath []

/-- The open-and-list part of `Unpacker::get_pak_file_list`, after key
resolution: open the file, read the pak index, return the interior paths. -/
def pakListOpened (env : Env) (pakPath : String) (key : Option Nat) :
    Except UeToolError (List AssetPath) :=
  if !(env.fopenOk pakPath) then .error (.IoError "Failed to open PAK file")
  else
    match env.pakFiles pakPath key with
    | .error e => .error (.PakError ("Failed to read PAK file: " ++ e))
    | .ok files => .ok (files.map AssetPath.new)

/-- `Unpacker::get_pak_file_list` of `src/lib.rs`: existence check, AES key
parse (repak's parser), then open and list — no content reads, no filtering,
no sorting. -/
def Unpacker.getPakFileList (env : Env) (pakPath : String) (aesKey : Option String) :
    Except UeToolError (List AssetPath) :=
  if !(env.fileExists pakPath) then .error (.FileNotFound pakPath)
  else
    match aesKey with
    | some k =>
      match env.parsePakAesKey k with
      | some key => pakListOpened env pakPath (some key)
      | none => .error (.InvalidAesKey ("Invalid AES key format: " ++ k))
    | none => pakListOpened env pakPath none

/-- The strip-prefix application of `PakUnpacker::unpack`
(`file_path.strip_prefix(..).unwrap_or(&file_path)` guarded by non-emptiness). -/
def stripPath (sp file : String) : String :=
  if sp ≠ "" then
    (if strIsPrefixOf sp file then strDrop file (strLen sp) else file)
  else file

/-- The per-file loop of `PakUnpacker::unpack`: strip the prefix for the
output location, read the entry (failure aborts the whole unpack), record an
`UnpackedFile` carrying the unchanged original path. -/
def unpackFilesLoop (env : Env) (pakPath outputDir : String) (o : PakUnpackOptions) :
    List String → Except UeToolError (List UnpackedFile)
  | [] => .ok []
  | f :: rest =>
    let stripped := stripPath o.stripPfx f
    let outPath := joinPath outputDir stripped
    match env.pakRead pakPath f with
    | .error e => .error (.PakError ("Failed to read file " ++ f ++ ": " ++ e))
    | .ok data =>
      match unpackFilesLoop env pakPath outputDir o rest with
      | .error e => .error e
      | .ok tail => .ok (⟨AssetPath.new f, outPath, data.length⟩ :: tail)

/-- The open-and-extract part of `PakUnpacker::unpack`, after key resolution. -/
def pakUnpackOpened (env : Env) (pakPath outputDir : String) (o : PakUnpackOptions)
    (key : Option Nat) : Except UeToolError (List UnpackedFile) :=
  if !(env.fopenOk pakPath) then .error (.IoError "Failed to open PAK file")
  else
    match env.pakFiles pakPath key with
    | .error e => .error (.PakError ("Failed to read PAK file: " ++ e))
    | .ok files => unpackFilesLoop env pakPath outputDir o files

/-- `PakUnpacker::unpack` of `src/pak_unpack.rs`: existence check, output
directory creation (modelled as succeeding), AES key parse, open, then the
per-file extraction loop. -/
def PakUnpacker.unpack (env : Env) (pakPath outputDir : String) (o : PakUnpackOptions) :
    Except UeToolError (List UnpackedFile) :=
  if !(env.fileExists pakPath) then .error (.FileNotFound pakPath)
  else
    match o.aes_key with
    | some k =>
      match env.parsePakAesKey k with
      | some key => pakUnpackOpened env pakPath outputDir o (some key)
      | none => .error (.InvalidAesKey ("Invalid AES key format: " ++ k))
    | none => pakUnpackOpened env pakPath outputDir o none

/-- `Unpacker::unpack_pak` of `src/lib.rs`: run the unpack and keep only the
original interior paths of the unpacked files. -/
def Unpacker.unpackPak (env : Env) (pakPath outputDir : String) (o : PakUnpackOptions) :
    Except UeToolError (List AssetPath) :=
  (PakUnpacker.unpack env pakPath outputDir o).map
    (fun l => l.map (·.originalPath))

/-- The pak half of the discovery loop of
`PyUnpacker::extract_pak_asset_map_from_folder` (`src/python_bindings.rs`):
regular files whose extension compares equal to `pak` under
`eq_ignore_ascii_case`. -/
def pyPakFilesOf (entries : List WalkEntry) : List String :=
  entries.filterMap (fun e =>
    if e.isFile then
      match extensionOf e.path with
      | some ext => if eqIgnoreAsciiCase ext "pak" then some e.path else none
      | none => none
    else none)

/-- The utoc half of the same discovery loop (the `else if` branch): regular
files not matching `pak` whose extension compares equal to `utoc` under
`eq_ignore_ascii_case`. -/
def pyUtocFilesOf (entries : List WalkEntry) : List String :=
  entries.filterMap (fun e =>
    if e.isFile then
      match extensionOf e.path with
      | some ext =>
        if eqIgnoreAsciiCase ext "pak" then none
        else if eqIgnoreAsciiCase ext "utoc" then some e.path else none
      | none => none
    else none)

/-- The pak discovery filter of `Unpacker::extract_asset_paths_from_archive`
(`src/lib.rs` lines 161-167): regular files whose extension is exactly the
string `pak` (a case-sensitive `OsStr` comparison). -/
def libPakFilesOf (entries : List WalkEntry) : List String :=
  entries.filterMap (fun e =>
    if e.isFile && ((extensionOf e.path).map (fun x => x == "pak")).getD false
    then some e.path else none)

/-- The utoc discovery filter of `Unpacker::extract_asset_paths_from_archive`
(`src/lib.rs` lines 169-175): extension exactly `utoc`, case-sensitively. -/
def libUtocFilesOf (entries : List WalkEntry) : List String :=
  entries.filterMap (fun e =>
    if e.isFile && ((extensionOf e.path).map (fun x => x == "utoc")).getD false
    then some e.path else none)

/-- The scratch directory produced by `tempfile::tempdir()` in the solo-pak
branch of the orchestrator (allocation modelled as succeeding; the concrete
path is immaterial to the observable results). -/
def tempDirPath : String := "TMPDIR"

/-- The `has_utoc` test of the orchestrator's pak loop: some discovered utoc
file has a stem equal (case-sensitively) to the pak's stem. -/
def hasMatchingUtoc (utocFiles : List String) (pakName : String) : Bool :=
  utocFiles.any (fun u =>
    match fileStemOf u with
    | some n => n == pakName
    | none => false)

/-- The fixed options the orchestrator passes to `unpack_pak` for a solo pak. -/
def soloPakOptions (aesKey : Option String) : PakUnpackOptions :=
  { aes_key := aesKey, stripPfx := "../../../", force := true, quiet := true,
    include_patterns := [] }

/-- The shared result map, modelled as an association list with
`HashMap::insert` semantics (replace an existing key, else append). -/
def insertMap (m : List (String × List String)) (k : String) (v : List String) :
    List (String × List String) :=
  if m.any (fun p => p.1 == k) then
    m.map (fun p => if p.1 == k then (k, v) else p)
  else m ++ [(k, v)]

/-- `HashMap` lookup on the association-list model. -/
def lookupMap (m : List (String × List String)) (k : String) : Option (List String) :=
  (m.find? (fun p => p.1 == k)).map (·.2)

/-- Orchestrator state: the result map plus, as instrumentation, the list of
pak files whose open was attempted (each call of `unpack_pak` or
`get_pak_file_list` on a pak path records that path). -/
structure OrchState where
  map : List (String × List String)
  openedPaks : List String
deriving DecidableEq, Repr

/-- One iteration of the pak loop of
`PyUnpacker::extract_pak_asset_map_from_folder`: skip bundle paks (a matching
utoc stem exists); for a solo pak, unpack into a scratch directory and record
`{stem}.pak ↦ assets` when the asset list is non-empty; unpack errors are
demoted to a warning and recorded nowhere. -/
def processPakUnit (env : Env) (aesKey : Option String) (utocFiles : List String)
    (st : OrchState) (pakPath : String) : OrchState :=
  let pakName := (fileStemOf pakPath).getD "unknown"
  if hasMatchingUtoc utocFiles pakName then st
  else
    let st := { st with openedPaks := st.openedPaks ++ [pakPath] }
    match Unpacker.unpackPak env pakPath tempDirPath (soloPakOptions aesKey) with
    | .ok assets =>
      let assetPaths := assets.map (·.val)
      if !assetPaths.isEmpty then
        { st with map := insertMap st.map (pakName ++ ".pak") assetPaths }
      else st
    | .error _ => st

/-- One iteration of the utoc loop of
`PyUnpacker::extract_pak_asset_map_from_folder`: list the utoc; on a
non-empty listing record `{stem}.utoc ↦ assets`; on an empty listing fall
back to `get_pak_file_list` on the sibling `.pak` (if it exists), recording
its (unfiltered) listing under the same `{stem}.utoc` key only when
non-empty; every failure is demoted to a warning. -/
def processUtocUnit (env : Env) (aesKey : Option String)
    (st : OrchState) (utocPath : String) : OrchState :=
  let utocName := (fileStemOf utocPath).getD "unknown"
  match UtocLister.list env utocPath { aes_key := aesKey, json_format := false } with
  | .ok assets =>
    let assetPaths := assets.map (·.val)
    if !assetPaths.isEmpty then
      { st with map := insertMap st.map (utocName ++ ".utoc") assetPaths }
    else
      let pakPath := withExtension utocPath "pak"
      if env.fileExists pakPath then
        let st := { st with openedPaks := st.openedPaks ++ [pakPath] }
        match Unpacker.getPakFileList env pakPath aesKey with
        | .ok pakAssets =>
          let ps := pakAssets.map (·.val)
          if !ps.isEmpty then
            { st with map := insertMap st.map (utocName ++ ".utoc") ps }
          else st
        | .error _ => st
      else st
  | .error _ => st

/-- `PyUnpacker::extract_pak_asset_map_from_folder` of
`src/python_bindings.rs`: walk the folder, split the regular files into pak
and utoc lists (case-insensitive extension match), run the pak loop then the
utoc loop over an initially empty result map.  The temp-dir creation (the
only fallible operation not demoted to a warning) is modelled as succeeding,
so the batch always returns its map. -/
def PyUnpacker.extractPakAssetMapFromFolder (env : Env) (folderPath : String)
    (aesKey : Option String) : OrchState :=
  let entries := env.walk folderPath
  let pakFiles := pyPakFilesOf entries
  let utocFiles := pyUtocFilesOf entries
  let st := pakFiles.foldl (processPakUnit env aesKey utocFiles) ⟨[], []⟩
  utocFiles.foldl (processUtocUnit env aesKey) st

/-- `to_asset_style_path` of `src/examples/advanced_usage.rs`: if the first
path component equal (lowercased) to `content` sits at index `i > 0`, return
the components from `i - 1` on, joined with `/`; otherwise fall back to the
path relative to `base_dir`, and finally to the bare file name. -/
def toAssetStylePath (path baseDir : String) : String :=
  let comps := pathComponents path
  let primary :=
    match comps.findIdx? (fun c => asciiLower c == "content") with
    | some i =>
      if i > 0 then
        some (replaceChar '\\' '/' (String.intercalate "/" (comps.drop (i - 1))))
      else none
    | none => none
  match primary with
  | some r => r
  | none =>
    let baseComps := pathComponents baseDir
    if baseComps.isPrefixOf comps then
      replaceChar '\\' '/' (String.intercalate "/" (comps.drop baseComps.length))
    else (fileNameOf path).getD ""

/-- Modelled from the spec: the primary rule of §4.5 as the specification
words it — the rule fires whenever SOME `content` component occurrence sits
at a position `i > 0` (the first such position), regardless of whether an
earlier occurrence sits at position 0.  Fallbacks as in the source. -/
def specNormalizePath (path baseDir : String) : String :=
  let comps := pathComponents path
  match (List.range comps.length).find? (fun i =>
      decide (0 < i) && (asciiLower (comps.getD i "") == "content")) with
  | some i => replaceChar '\\' '/' (String.intercalate "/" (comps.drop (i - 1)))
  | none =>
    let baseComps := pathComponents baseDir
    if baseComps.isPrefixOf comps then
      replaceChar '\\' '/' (String.intercalate "/" (comps.drop baseComps.length))
    else (fileNameOf path).getD ""

/-- Whether a result is an `InvalidFormat`-kind error. -/
def resultIsInvalidFormat : Except UeToolError ArchiveType → Bool
  | .error (.InvalidFormat _) => true
  | _ => false

/-! ### Concrete environments used to instantiate the general theorems. -/

/-- A bundle `Main.pak`/`Main.utoc` whose utoc yields no chunks and whose pak
index is empty. -/
def envBundleEmpty : Env :=
  { fileExists := fun p => p == "root/Main.utoc" || p == "root/Main.pak"
    walk := fun _ => [⟨"root/Main.pak", true⟩, ⟨"root/Main.utoc", true⟩]
    parsePakAesKey := fun _ => none
    parseUtocAesKey := fun _ => .error "invalid"
    fopenOk := fun _ => true
    pakFiles := fun p _ => if p == "root/Main.pak" then .ok [] else .error "no pak"
    pakRead := fun _ _ => .ok [0]
    iostoreOpen := fun p _ => if p == "root/Main.utoc" then .ok [] else .error "bad" }

/-- A bundle whose utoc yields no chunks but whose pak index lists two raw
(non-asset-extension) entries. -/
def envBundleFallback : Env :=
  { envBundleEmpty with
    pakFiles := fun p _ =>
      if p == "root/Main.pak" then .ok ["Raw/A.bin", "Raw/B.bin"] else .error "no pak" }

/-- A bundle whose utoc yields chunks (with a duplicate, a pathless chunk and
a non-asset extension). -/
def envBundleLive : Env :=
  { envBundleEmpty with
    iostoreOpen := fun p _ =>
      if p == "root/Main.utoc" then
        .ok [⟨"c1", some "/Game/B.json"⟩, ⟨"c2", some "/Game/A.uasset"⟩,
             ⟨"c3", some "/Game/A.uasset"⟩, ⟨"c4", none⟩, ⟨"c5", some "/Game/Skip.bin"⟩]
      else .error "bad" }

/-- A utoc whose chunks are exactly the specification's worked example. -/
def envUtocExample : Env :=
  { envBundleEmpty with
    fileExists := fun p => p == "root/Main.utoc"
    walk := fun _ => [⟨"root/Main.utoc", true⟩]
    iostoreOpen := fun p _ =>
      if p == "root/Main.utoc" then
        .ok [⟨"c1", some "/Game/A.uasset"⟩, ⟨"c2", some "/Game/A.uasset"⟩,
             ⟨"c3", some "/Game/B.json"⟩]
      else .error "bad" }

/-- A batch of three solo paks: `A.pak` lists one asset, `B.pak` is corrupt,
`C.pak` lists nothing. -/
def envBatch : Env :=
  { fileExists := fun _ => true
    walk := fun _ => [⟨"root/A.pak", true⟩, ⟨"root/B.pak", true⟩, ⟨"root/C.pak", true⟩]
    parsePakAesKey := fun _ => none
    parseUtocAesKey := fun _ => .error "invalid"
    fopenOk := fun _ => true
    pakFiles := fun p _ =>
      if p == "root/A.pak" then .ok ["x.uasset"]
      else if p == "root/B.pak" then .error "corrupt pak"
      else if p == "root/C.pak" then .ok []
      else .error "no pak"
    pakRead := fun _ _ => .ok [1, 2, 3]
    iostoreOpen := fun _ _ => .error "bad" }

/-- An environment whose AES-key parsers reject every key string. -/
def envKeys : Env :=
  { fileExists := fun _ => true
    walk := fun _ => []
    parsePakAesKey := fun _ => none
    parseUtocAesKey := fun _ => .error "invalid hex"
    fopenOk := fun _ => true
    pakFiles := fun _ _ => .ok []
    pakRead := fun _ _ => .ok []
    iostoreOpen := fun _ _ => .ok [] }

/-- A single pak whose index holds a strip-prefixed entry and a plain entry. -/
def envPakStrip : Env :=
  { fileExists := fun p => p == "Solo.pak"
    walk := fun _ => [⟨"Solo.pak", true⟩]
    parsePakAesKey := fun _ => none
    parseUtocAesKey := fun _ => .error "invalid"
    fopenOk := fun _ => true
    pakFiles := fun p _ =>
      if p == "Solo.pak" then .ok ["../../../Game/X.uasset", "Other.bin"]
      else .error "no pak"
    pakRead := fun _ _ => .ok [7, 7]
    iostoreOpen := fun _ _ => .error "bad" }

/-! ### Order, sorting and deduplication lemmas -/

theorem charLt_irrefl (c : Char) : ¬ c < c := fun h => Nat.lt_irrefl _ h

theorem char_eq_of_toNat_eq {a b : Char} (h : a.toNat = b.toNat) : a = b := by
  have h2 := congrArg Char.ofNat h
  rwa [Char.ofNat_toNat, Char.ofNat_toNat] at h2

/-- The boolean comparison `charListLe as bs` holds exactly when `bs` is not
lexicographically smaller than `as`. -/
theorem charListLe_iff_not_lex :
    ∀ as bs : List Char, charListLe as bs = true ↔ ¬ List.Lex (· < ·) bs as
  | [], bs => iff_of_true rfl (List.Lex.not_nil_right _ bs)
  | a :: as, [] =>
    iff_of_false (by simp [charListLe]) (fun h => h List.Lex.nil)
  | a :: as, b :: bs => by
    unfold charListLe
    rcases Nat.lt_trichotomy a.toNat b.toNat with h | h | h
    · rw [if_pos h]
      refine iff_of_true rfl (fun hlt => ?_)
      cases hlt with
      | cons h3 => exact Nat.lt_irrefl _ h
      | rel h3 => exact Nat.lt_asymm h h3
    · have hab : a = b := char_eq_of_toNat_eq h
      subst hab
      rw [if_neg (Nat.lt_irrefl _), if_neg (Nat.lt_irrefl _),
        charListLe_iff_not_lex as bs]
      exact (not_congr List.Lex.cons_iff).symm
    · have h1 : ¬ a.toNat < b.toNat := Nat.lt_asymm h
      rw [if_neg h1, if_pos h]
      exact iff_of_false (by simp) (fun hle => hle (List.Lex.rel h))

/-- `charListLe` agrees with the lexicographic order on character lists. -/
theorem charListLe_iff_le (as bs : List Char) : charListLe as bs = true ↔ as ≤ bs :=
  (charListLe_iff_not_lex as bs).trans (show (¬ bs < as) ↔ as ≤ bs from not_lt)

theorem strLe_iff_le (a b : String) : strLe a b ↔ a ≤ b :=
  (charListLe_iff_le a.data b.data).trans String.le_iff_toList_le.symm

instance : IsTotal String strLe :=
  ⟨fun a b => (le_total a b).imp (strLe_iff_le a b).mpr (strLe_iff_le b a).mpr⟩

instance : IsTrans String strLe :=
  ⟨fun a b c h1 h2 => (strLe_iff_le a c).mpr
    (le_trans ((strLe_iff_le a b).mp h1) ((strLe_iff_le b c).mp h2))⟩

theorem strLe_antisymm {a b : String} (h1 : strLe a b) (h2 : strLe b a) : a = b :=
  le_antisymm ((strLe_iff_le a b).mp h1) ((strLe_iff_le b a).mp h2)

theorem sortStrings_sorted (l : List String) : List.Sorted strLe (sortStrings l) :=
  List.sorted_insertionSort strLe l

theorem mem_sortStrings {l : List String} {x : String} :
    x ∈ sortStrings l ↔ x ∈ l :=
  List.mem_insertionSort strLe

theorem mem_dedupConsec : ∀ {l : List String} {x : String}, x ∈ dedupConsec l ↔ x ∈ l := by
  intro l x
  induction l using dedupConsec.induct with
  | case1 => simp [dedupConsec]
  | case2 a => simp [dedupConsec]
  | case3 b rest ih =>
    rw [show dedupConsec (b :: b :: rest) = dedupConsec (b :: rest) by
      simp [dedupConsec]]
    rw [ih]
    simp [List.mem_cons]
  | case4 a b rest hne ih =>
    rw [show dedupConsec (a :: b :: rest) = a :: dedupConsec (b :: rest) by
      simp [dedupConsec, hne]]
    simp [List.mem_cons, ih]

/-- On a `strLe`-sorted list, removing consecutive duplicates yields a
strictly increasing list. -/
theorem dedupConsec_strict : ∀ l : List String, List.Pairwise strLe l →
    List.Pairwise (fun a b => strLe a b ∧ a ≠ b) (dedupConsec l) := by
  intro l
  induction l using dedupConsec.induct with
  | case1 => intro _; simp [dedupConsec]
  | case2 a => intro _; simp [dedupConsec]
  | case3 b rest ih =>
    intro h
    rw [show dedupConsec (b :: b :: rest) = dedupConsec (b :: rest) by
      simp [dedupConsec]]
    exact ih (List.pairwise_cons.mp h).2
  | case4 a b rest hne ih =>
    intro h
    have h1 := List.pairwise_cons.mp h
    rw [show dedupConsec (a :: b :: rest) = a :: dedupConsec (b :: rest) by
      simp [dedupConsec, hne]]
    refine List.pairwise_cons.mpr ⟨?_, ih h1.2⟩
    intro x hx
    have hxmem : x ∈ b :: rest := mem_dedupConsec.mp hx
    refine ⟨h1.1 x hxmem, ?_⟩
    intro hax
    subst hax
    rcases List.mem_cons.mp hxmem with h2 | h2
    · exact hne h2
    · have hba : strLe b a := (List.pairwise_cons.mp h1.2).1 a h2
      have hab : strLe a b := h1.1 b (List.mem_cons_self b rest)
      exact hne (strLe_antisymm hab hba)

theorem sortedDedup_sorted (l : List String) :
    List.Sorted (· ≤ ·) (sortedDedup l) :=
  ((dedupConsec_strict _ (sortStrings_sorted l)).imp
    (fun h => (strLe_iff_le _ _).mp h.1))

theorem sortedDedup_nodup (l : List String) : (sortedDedup l).Nodup :=
  (dedupConsec_strict _ (sortStrings_sorted l)).imp (fun h => h.2)

theorem mem_sortedDedup {l : List String} {x : String} :
    x ∈ sortedDedup l ↔ x ∈ l :=
  mem_dedupConsec.trans mem_sortStrings

/-! ### Result-map lemmas -/

theorem find?_insertReplace (k : String) (v : List String) :
    ∀ m : List (String × List String), m.any (fun p => p.1 == k) = true →
      (m.map (fun p => if p.1 == k then (k, v) else p)).find? (fun p => p.1 == k) =
        some (k, v)
  | [], h => by simp at h
  | a :: t, h => by
    by_cases ha : (a.1 == k) = true
    · rw [List.map_cons, if_pos ha, List.find?_cons_of_pos _ (by simp)]
    · have ht : t.any (fun p => p.1 == k) = true := by
        simpa [List.any_cons, ha] using h
      rw [List.map_cons, if_neg ha, List.find?_cons_of_neg]
      · exact find?_insertReplace k v t ht
      · exact ha

theorem find?_insertReplace_ne {k0 k : String} (hk : k0 ≠ k) (v : List String) :
    ∀ m : List (String × List String),
      (m.map (fun p => if p.1 == k0 then (k0, v) else p)).find? (fun p => p.1 == k) =
        m.find? (fun p => p.1 == k)
  | [] => rfl
  | a :: t => by
    by_cases ha0 : (a.1 == k0) = true
    · have ha : ¬ ((a.1 == k) = true) := by
        have h1 : a.1 = k0 := by simpa using ha0
        simp [h1, hk]
      rw [List.map_cons, if_pos ha0, List.find?_cons_of_neg, List.find?_cons_of_neg]
      · exact find?_insertReplace_ne hk v t
      · exact ha
      · simp [hk]
    · by_cases ha : (a.1 == k) = true
      · rw [List.map_cons, if_neg ha0, List.find?_cons_of_pos, List.find?_cons_of_pos]
        · exact ha
        · exact ha
      · rw [List.map_cons, if_neg ha0, List.find?_cons_of_neg, List.find?_cons_of_neg]
        · exact find?_insertReplace_ne hk v t
        · exact ha
        · exact ha

theorem lookupMap_insertMap_self (m : List (String × List String)) (k : String)
    (v : List String) : lookupMap (insertMap m k v) k = some v := by
  unfold insertMap lookupMap
  by_cases h : m.any (fun p => p.1 == k) = true
  · rw [if_pos h, find?_insertReplace k v m h]
    rfl
  · rw [if_neg h, List.find?_append]
    have h2 : m.find? (fun p => p.1 == k) = none :=
      List.find?_eq_none.mpr (fun x hx hpx => h (List.any_eq_true.mpr ⟨x, hx, hpx⟩))
    simp [h2, List.find?_cons]

theorem lookupMap_insertMap_ne {k0 k : String} (hk : k0 ≠ k)
    (m : List (String × List String)) (v : List String) :
    lookupMap (insertMap m k0 v) k = lookupMap m k := by
  unfold insertMap lookupMap
  by_cases h : m.any (fun p => p.1 == k0) = true
  · rw [if_pos h, find?_insertReplace_ne hk v m]
  · have hk0k : (k0 == k) = false := by simp [hk]
    rw [if_neg h, List.find?_append]
    simp [List.find?_cons, hk0k]

/-! ### Key-shape lemmas: a `.pak` bundle key never collides with a `.utoc`
bundle key, and `(· ++ ".utoc")` is injective. -/

theorem append_pak_ne_append_utoc (a b : String) : a ++ ".pak" ≠ b ++ ".utoc" := by
  intro h
  have hd := congrArg (fun s => s.data.reverse) h
  simp only [String.data_append, List.reverse_append] at hd
  exact absurd (List.head_eq_of_cons_eq hd) (by decide)

theorem append_utoc_inj {a b : String} (h : a ++ ".utoc" = b ++ ".utoc") : a = b := by
  have hd := congrArg String.data h
  simp only [String.data_append] at hd
  exact String.ext (List.append_cancel_right hd)

theorem append_pak_inj {a b : String} (h : a ++ ".pak" = b ++ ".pak") : a = b := by
  have hd := congrArg String.data h
  simp only [String.data_append] at hd
  exact String.ext (List.append_cancel_right hd)

/-! ### Orchestrator step and fold lemmas -/

/-- A pak-loop step writes at most the key `{stem}.pak`: any other key's
lookup is unchanged. -/
theorem processPakUnit_lookup_ne (env : Env) (aesKey : Option String)
    (utocFiles : List String) (st : OrchState) (v : String) {k : String}
    (h : ((fileStemOf v).getD "unknown") ++ ".pak" ≠ k) :
    lookupMap (processPakUnit env aesKey utocFiles st v).map k = lookupMap st.map k := by
  unfold processPakUnit
  dsimp only
  split
  · rfl
  · split
    · split
      · exact lookupMap_insertMap_ne h st.map _
      · rfl
    · rfl

/-- A utoc-loop step writes at most the key `{stem}.utoc`: any other key's
lookup is unchanged. -/
theorem processUtocUnit_lookup_ne (env : Env) (aesKey : Option String)
    (st : OrchState) (v : String) {k : String}
    (h : ((fileStemOf v).getD "unknown") ++ ".utoc" ≠ k) :
    lookupMap (processUtocUnit env aesKey st v).map k = lookupMap st.map k := by
  unfold processUtocUnit
  dsimp only
  split
  · split
    · exact lookupMap_insertMap_ne h st.map _
    · split
      · split
        · split
          · exact lookupMap_insertMap_ne h st.map _
          · rfl
        · rfl
      · rfl
  · rfl

/-- Folding the pak loop over units none of which owns the key `k` leaves
`k`'s lookup unchanged. -/
theorem foldl_processPakUnit_lookup_ne (env : Env) (aesKey : Option String)
    (utocFiles : List String) {k : String} :
    ∀ (vs : List String) (st : OrchState),
      (∀ v ∈ vs, ((fileStemOf v).getD "unknown") ++ ".pak" ≠ k) →
      lookupMap (vs.foldl (processPakUnit env aesKey utocFiles) st).map k =
        lookupMap st.map k
  | [], st, _ => rfl
  | v :: vs, st, h => by
    rw [List.foldl_cons,
      foldl_processPakUnit_lookup_ne env aesKey utocFiles vs _
        (fun x hx => h x (List.mem_cons_of_mem v hx)),
      processPakUnit_lookup_ne env aesKey utocFiles st v
        (h v (List.mem_cons_self v vs))]

/-- Folding the utoc loop over units none of which owns the key `k` leaves
`k`'s lookup unchanged. -/
theorem foldl_processUtocUnit_lookup_ne (env : Env) (aesKey : Option String)
    {k : String} :
    ∀ (vs : List String) (st : OrchState),
      (∀ v ∈ vs, ((fileStemOf v).getD "unknown") ++ ".utoc" ≠ k) →
      lookupMap (vs.foldl (processUtocUnit env aesKey) st).map k =
        lookupMap st.map k
  | [], st, _ => rfl
  | v :: vs, st, h => by
    rw [List.foldl_cons,
      foldl_processUtocUnit_lookup_ne env aesKey vs _
        (fun x hx => h x (List.mem_cons_of_mem v hx)),
      processUtocUnit_lookup_ne env aesKey st v (h v (List.mem_cons_self v vs))]

/-- A utoc-loop step never removes instrumentation entries, and adds at most
the sibling pak path. -/
theorem processUtocUnit_opened_not_mem (env : Env) (aesKey : Option String)
    (st : OrchState) (v : String) {p : String}
    (hst : p ∉ st.openedPaks) (hv : withExtension v "pak" ≠ p) :
    p ∉ (processUtocUnit env aesKey st v).openedPaks := by
  have hmem : p ∉ st.openedPaks ++ [withExtension v "pak"] := by
    intro hm
    rcases List.mem_append.mp hm with h1 | h1
    · exact hst h1
    · exact hv ((List.mem_singleton.mp h1).symm)
  unfold processUtocUnit
  dsimp only
  split
  · split
    · exact hst
    · split
      · split
        · split
          · exact hmem
          · exact hmem
        · exact hmem
      · exact hst
  · exact hst

/-- A pak-loop step records only its own pak path in the instrumentation. -/
theorem processPakUnit_opened_not_mem (env : Env) (aesKey : Option String)
    (utocFiles : List String) (st : OrchState) (v : String) {p : String}
    (hst : p ∉ st.openedPaks)
    (hv : v = p → hasMatchingUtoc utocFiles ((fileStemOf v).getD "unknown") = true) :
    p ∉ (processPakUnit env aesKey utocFiles st v).openedPaks := by
  unfold processPakUnit
  dsimp only
  split
  · exact hst
  · rename_i hmatch
    have hvp : v ≠ p := fun he => hmatch (hv he)
    have hmem : p ∉ st.openedPaks ++ [v] := by
      intro hm
      rcases List.mem_append.mp hm with h1 | h1
      · exact hst h1
      · exact hvp ((List.mem_singleton.mp h1).symm)
    split
    · split
      · exact hmem
      · exact hmem
    · exact hmem

theorem foldl_processPakUnit_opened_not_mem (env : Env) (aesKey : Option String)
    (utocFiles : List String) {p : String} :
    ∀ (vs : List String) (st : OrchState), p ∉ st.openedPaks →
      (∀ v ∈ vs, v = p → hasMatchingUtoc utocFiles ((fileStemOf v).getD "unknown") = true) →
      p ∉ (vs.foldl (processPakUnit env aesKey utocFiles) st).openedPaks
  | [], _, hst, _ => hst
  | v :: vs, st, hst, h => by
    rw [List.foldl_cons]
    exact foldl_processPakUnit_opened_not_mem env aesKey utocFiles vs _
      (processPakUnit_opened_not_mem env aesKey utocFiles st v hst
        (h v (List.mem_cons_self v vs)))
      (fun x hx => h x (List.mem_cons_of_mem v hx))

theorem foldl_processUtocUnit_opened_not_mem (env : Env) (aesKey : Option String)
    {p : String} :
    ∀ (vs : List String) (st : OrchState), p ∉ st.openedPaks →
      (∀ v ∈ vs, withExtension v "pak" ≠ p) →
      p ∉ (vs.foldl (processUtocUnit env aesKey) st).openedPaks
  | [], _, hst, _ => hst
  | v :: vs, st, hst, h => by
    rw [List.foldl_cons]
    exact foldl_processUtocUnit_opened_not_mem env aesKey vs _
      (processUtocUnit_opened_not_mem env aesKey st v hst (h v (List.mem_cons_self v vs)))
      (fun x hx => h x (List.mem_cons_of_mem v hx))

/-! ### Step equations: the exact effect of one loop iteration in each
observable case. -/

/-- A utoc unit whose listing succeeds non-empty inserts exactly
`{stem}.utoc ↦ listing` and opens no pak. -/
theorem processUtocUnit_eq_of_ok_nonempty (env : Env) (aesKey : Option String)
    (st : OrchState) (u : String) {assets : List AssetPath}
    (hls : UtocLister.list env u { aes_key := aesKey, json_format := false } = .ok assets)
    (hne : (assets.map (·.val)).isEmpty = false) :
    processUtocUnit env aesKey st u =
      { st with
        map := insertMap st.map
          (((fileStemOf u).getD "unknown") ++ ".utoc") (assets.map (·.val)) } := by
  unfold processUtocUnit
  rw [hls]
  dsimp only
  rw [hne]
  rfl

/-- A utoc unit whose listing succeeds empty, when the sibling pak exists and
lists successfully and non-empty, inserts `{stem}.utoc ↦ pak listing` and
records the pak open. -/
theorem processUtocUnit_eq_fallback_nonempty (env : Env) (aesKey : Option String)
    (st : OrchState) (u : String) {pakAssets : List AssetPath}
    (hls : UtocLister.list env u { aes_key := aesKey, json_format := false } = .ok [])
    (hex : env.fileExists (withExtension u "pak") = true)
    (hpak : Unpacker.getPakFileList env (withExtension u "pak") aesKey = .ok pakAssets)
    (hne : (pakAssets.map (·.val)).isEmpty = false) :
    processUtocUnit env aesKey st u =
      { map := insertMap st.map
          (((fileStemOf u).getD "unknown") ++ ".utoc") (pakAssets.map (·.val)),
        openedPaks := st.openedPaks ++ [withExtension u "pak"] } := by
  unfold processUtocUnit
  rw [hls]
  dsimp only
  rw [hex, hpak]
  dsimp only
  rw [hne]
  rfl

/-- A utoc unit whose listing succeeds empty, when the sibling pak exists but
its listing is empty, records the pak open and inserts nothing. -/
theorem processUtocUnit_eq_fallback_empty (env : Env) (aesKey : Option String)
    (st : OrchState) (u : String)
    (hls : UtocLister.list env u { aes_key := aesKey, json_format := false } = .ok [])
    (hex : env.fileExists (withExtension u "pak") = true)
    (hpak : Unpacker.getPakFileList env (withExtension u "pak") aesKey = .ok []) :
    processUtocUnit env aesKey st u =
      { st with openedPaks := st.openedPaks ++ [withExtension u "pak"] } := by
  unfold processUtocUnit
  rw [hls]
  dsimp only
  rw [hex, hpak]
  rfl

/-- A utoc unit whose listing succeeds empty, when the sibling pak exists but
fails to list, records the pak open and inserts nothing. -/
theorem processUtocUnit_eq_fallback_error (env : Env) (aesKey : Option String)
    (st : OrchState) (u : String) {e : UeToolError}
    (hls : UtocLister.list env u { aes_key := aesKey, json_format := false } = .ok [])
    (hex : env.fileExists (withExtension u "pak") = true)
    (hpak : Unpacker.getPakFileList env (withExtension u "pak") aesKey = .error e) :
    processUtocUnit env aesKey st u =
      { st with openedPaks := st.openedPaks ++ [withExtension u "pak"] } := by
  unfold processUtocUnit
  rw [hls]
  dsimp only
  rw [hex, hpak]
  rfl

/-- A utoc unit whose listing fails leaves the state unchanged. -/
theorem processUtocUnit_eq_of_error (env : Env) (aesKey : Option String)
    (st : OrchState) (u : String) {e : UeToolError}
    (hls : UtocLister.list env u { aes_key := aesKey, json_format := false } = .error e) :
    processUtocUnit env aesKey st u = st := by
  unfold processUtocUnit
  rw [hls]

/-- A pak unit with a matching utoc stem is skipped entirely. -/
theorem processPakUnit_eq_of_bundle (env : Env) (aesKey : Option String)
    (utocFiles : List String) (st : OrchState) (v : String)
    (hm : hasMatchingUtoc utocFiles ((fileStemOf v).getD "unknown") = true) :
    processPakUnit env aesKey utocFiles st v = st := by
  simp only [processPakUnit, hm, if_true]

/-- A solo pak unit that unpacks successfully and non-empty inserts
`{stem}.pak ↦ assets` and records the open. -/
theorem processPakUnit_eq_of_ok_nonempty (env : Env) (aesKey : Option String)
    (utocFiles : List String) (st : OrchState) (v : String) {assets : List AssetPath}
    (hm : hasMatchingUtoc utocFiles ((fileStemOf v).getD "unknown") = false)
    (hup : Unpacker.unpackPak env v tempDirPath (soloPakOptions aesKey) = .ok assets)
    (hne : (assets.map (·.val)).isEmpty = false) :
    processPakUnit env aesKey utocFiles st v =
      { map := insertMap st.map
          (((fileStemOf v).getD "unknown") ++ ".pak") (assets.map (·.val)),
        openedPaks := st.openedPaks ++ [v] } := by
  simp only [processPakUnit, hm, hup, hne, Bool.false_eq_true, if_false,
    Bool.not_false, if_true]

/-- A solo pak unit that unpacks successfully but empty records the open and
inserts nothing. -/
theorem processPakUnit_eq_of_ok_empty (env : Env) (aesKey : Option String)
    (utocFiles : List String) (st : OrchState) (v : String)
    (hm : hasMatchingUtoc utocFiles ((fileStemOf v).getD "unknown") = false)
    (hup : Unpacker.unpackPak env v tempDirPath (soloPakOptions aesKey) = .ok []) :
    processPakUnit env aesKey utocFiles st v =
      { st with openedPaks := st.openedPaks ++ [v] } := by
  simp only [processPakUnit, hm, hup, Bool.false_eq_true, if_false,
    List.map_nil, List.isEmpty_nil, Bool.not_true]

/-- A solo pak unit whose unpack fails records the open and inserts nothing. -/
theorem processPakUnit_eq_of_error (env : Env) (aesKey : Option String)
    (utocFiles : List String) (st : OrchState) (v : String) {e : UeToolError}
    (hm : hasMatchingUtoc utocFiles ((fileStemOf v).getD "unknown") = false)
    (hup : Unpacker.unpackPak env v tempDirPath (soloPakOptions aesKey) = .error e) :
    processPakUnit env aesKey utocFiles st v =
      { st with openedPaks := st.openedPaks ++ [v] } := by
  simp only [processPakUnit, hm, hup, Bool.false_eq_true, if_false,
    List.map_nil, List.isEmpty_nil, Bool.not_true]

/-! ### Unpack-loop and chunk-collection lemmas -/

/-- On success, the per-file unpack loop returns the interior paths
unchanged, in order. -/
theorem unpackFilesLoop_ok_map (env : Env) (pakPath outputDir : String)
    (o : PakUnpackOptions) :
    ∀ {fs : List String} {ufs : List UnpackedFile},
      unpackFilesLoop env pakPath outputDir o fs = .ok ufs →
      ufs.map (·.originalPath) = fs.map AssetPath.new
  | [], ufs, h => by
    simp only [unpackFilesLoop] at h
    cases h
    rfl
  | f :: fs, ufs, h => by
    simp only [unpackFilesLoop] at h
    cases hr : env.pakRead pakPath f with
    | error e => rw [hr] at h; cases h
    | ok data =>
      rw [hr] at h
      cases hl : unpackFilesLoop env pakPath outputDir o fs with
      | error e => rw [hl] at h; cases h
      | ok tail =>
        rw [hl] at h
        cases h
        simp only [List.map_cons, List.map]
        rw [unpackFilesLoop_ok_map env pakPath outputDir o hl]

/-- The outcome of the unpack loop, projected to original paths, does not
depend on the options (only the output locations do). -/
theorem unpackFilesLoop_originals_eq (env : Env) (pakPath outputDir : String)
    (o₁ o₂ : PakUnpackOptions) :
    ∀ fs : List String,
      (unpackFilesLoop env pakPath outputDir o₁ fs).map (List.map (·.originalPath)) =
        (unpackFilesLoop env pakPath outputDir o₂ fs).map (List.map (·.originalPath))
  | [] => rfl
  | f :: fs => by
    simp only [unpackFilesLoop]
    cases hr : env.pakRead pakPath f with
    | error e => rfl
    | ok data =>
      have ih := unpackFilesLoop_originals_eq env pakPath outputDir o₁ o₂ fs
      cases h1 : unpackFilesLoop env pakPath outputDir o₁ fs with
      | error e =>
        cases h2 : unpackFilesLoop env pakPath outputDir o₂ fs with
        | error e2 =>
          rw [h1, h2] at ih
          cases ih
          rfl
        | ok t2 => rw [h1, h2] at ih; cases ih
      | ok t1 =>
        cases h2 : unpackFilesLoop env pakPath outputDir o₂ fs with
        | error e2 => rw [h1, h2] at ih; cases ih
        | ok t2 =>
          rw [h1, h2] at ih
          have hmaps : t1.map (·.originalPath) = t2.map (·.originalPath) := by
            simpa [Except.map] using ih
          simp [Except.map, List.map_cons, hmaps]

/-- Membership in the collected chunk paths. -/
theorem mem_collectAssetPaths {chunks : List Chunk} {x : String} :
    x ∈ collectAssetPaths chunks ↔
      ∃ c ∈ chunks, c.path = some x ∧ UtocLister.isAssetFile x = true := by
  unfold collectAssetPaths
  rw [List.mem_filterMap]
  constructor
  · rintro ⟨c, hc, hf⟩
    cases hp : c.path with
    | none => rw [hp] at hf; cases hf
    | some p =>
      rw [hp] at hf
      dsimp only at hf
      by_cases ha : UtocLister.isAssetFile p = true
      · rw [if_pos ha] at hf
        cases hf
        exact ⟨c, hc, hp, ha⟩
      · rw [if_neg ha] at hf
        cases hf
  · rintro ⟨c, hc, hp, ha⟩
    exact ⟨c, hc, by rw [hp]; simp [ha]⟩

/-! ### Claim theorems -/

/-- Claim C4, counterexample to the claim as stated: staging a `.7z` archive
fails, but with the `InvalidArgument` error kind, not `InvalidFormat` as the
claim asserts. -/
theorem c4_invalid_argument_not_invalid_format :
    Unpacker.detectArchiveType "archive.7z" =
      .error (.InvalidArgument "Unsupported archive type: 7z")
    ∧ resultIsInvalidFormat (Unpacker.detectArchiveType "archive.7z") = false := by
  constructor
  · decide
  · decide

/-- Claim C4, amended: for every archive path whose lowercased extension is
neither `zip` nor `rar`, `detect_archive_type` fails with the
`InvalidArgument` error kind (carrying the lowercased extension), never with
`InvalidFormat`. -/
theorem c4_unsupported_extension_invalid_argument (p : String)
    (hz : asciiLower ((extensionOf p).getD "") ≠ "zip")
    (hr : asciiLower ((extensionOf p).getD "") ≠ "rar") :
    Unpacker.detectArchiveType p =
      .error (.InvalidArgument
        ("Unsupported archive type: " ++ asciiLower ((extensionOf p).getD "")))
    ∧ resultIsInvalidFormat (Unpacker.detectArchiveType p) = false := by
  have hd : Unpacker.detectArchiveType p =
      .error (.InvalidArgument
        ("Unsupported archive type: " ++ asciiLower ((extensionOf p).getD ""))) := by
    unfold Unpacker.detectArchiveType
    rw [if_neg hz, if_neg hr]
  exact ⟨hd, by rw [hd]; rfl⟩

/-- Witness for C4's amended theorem at the concrete input `data.tar`. -/
theorem c4_unsupported_extension_invalid_argument_witness :
    Unpacker.detectArchiveType "data.tar" =
      .error (.InvalidArgument "Unsupported archive type: tar")
    ∧ resultIsInvalidFormat (Unpacker.detectArchiveType "data.tar") = false :=
  c4_unsupported_extension_invalid_argument "data.tar" (by decide) (by decide)

/-- Claim C9, counterexample to the claim as stated: `AssetPath` values
reached through the public constructors can contain backslashes — no
normalization happens. -/
theorem c9_backslash_reachable :
    '\\' ∈ (AssetPath.new "a\\b").val.data
    ∧ '\\' ∈ (AssetPath.ofString "a\\b").val.data
    ∧ '\\' ∈ (AssetPath.ofStr "a\\b").val.data
    ∧ '\\' ∈ (AssetPath.ofPathBuf "C:\\Game\\x.uasset").val.data := by
  refine ⟨?_, ?_, ?_, ?_⟩ <;> decide

/-- Claim C9, amended: every public constructor of `AssetPath` stores the
input string unchanged, so the value contains a backslash exactly when the
input does (no backslash normalization is performed). -/
theorem c9_constructors_preserve_input (s : String) :
    (AssetPath.new s).val = s
    ∧ (AssetPath.ofString s).val = s
    ∧ (AssetPath.ofStr s).val = s
    ∧ (AssetPath.ofPathBuf s).val = s
    ∧ ('\\' ∈ (AssetPath.new s).val.data ↔ '\\' ∈ s.data) :=
  ⟨rfl, rfl, rfl, rfl, Iff.rfl⟩

/-- Claim C8, counterexample to the claim as stated: on
`Content/Sub/Content/Hero.uasset` (first `Content` segment at position 0, a
second one at position 2 > 0) the code skips the primary rule and falls back
to the bare file name, while the specification's wording (primary rule fires
for an occurrence at position i > 0) yields `Sub/Content/Hero.uasset`. -/
theorem c8_first_content_occurrence_decides :
    toAssetStylePath "Content/Sub/Content/Hero.uasset" "Base" = "Hero.uasset"
    ∧ specNormalizePath "Content/Sub/Content/Hero.uasset" "Base" =
        "Sub/Content/Hero.uasset"
    ∧ toAssetStylePath "Content/Sub/Content/Hero.uasset" "Base" ≠
        specNormalizePath "Content/Sub/Content/Hero.uasset" "Base" := by
  refine ⟨?_, ?_, ?_⟩ <;> decide

/-- Claim C8, amended: `to_asset_style_path` is a total function of three
ordered rules keyed to the FIRST `Content`-segment occurrence: if the first
occurrence (case-insensitive) sits at index i > 0, return the components from
i - 1 joined with `/` (backslashes replaced); if there is no occurrence or
the first occurrence sits at index 0, return the path relative to `base_dir`
when `base_dir`'s components are a prefix, else the bare file name.  In
particular `ModX/Content/Characters/Hero.uasset` normalizes to itself. -/
theorem c8_normalization_rules (path baseDir : String) :
    (∀ i, (pathComponents path).findIdx? (fun c => asciiLower c == "content") = some i →
      0 < i →
      toAssetStylePath path baseDir =
        replaceChar '\\' '/' (String.intercalate "/" ((pathComponents path).drop (i - 1))))
    ∧ ((pathComponents path).findIdx? (fun c => asciiLower c == "content") = none →
      ((pathComponents baseDir).isPrefixOf (pathComponents path) = true →
        toAssetStylePath path baseDir =
          replaceChar '\\' '/'
            (String.intercalate "/" ((pathComponents path).drop (pathComponents baseDir).length)))
      ∧ ((pathComponents baseDir).isPrefixOf (pathComponents path) = false →
        toAssetStylePath path baseDir = (fileNameOf path).getD ""))
    ∧ ((pathComponents path).findIdx? (fun c => asciiLower c == "content") = some 0 →
      ((pathComponents baseDir).isPrefixOf (pathComponents path) = true →
        toAssetStylePath path baseDir =
          replaceChar '\\' '/'
            (String.intercalate "/" ((pathComponents path).drop (pathComponents baseDir).length)))
      ∧ ((pathComponents baseDir).isPrefixOf (pathComponents path) = false →
        toAssetStylePath path baseDir = (fileNameOf path).getD "")) := by
  refine ⟨?_, ?_, ?_⟩
  · intro i hidx hpos
    unfold toAssetStylePath
    dsimp only
    rw [hidx]
    dsimp only
    rw [if_pos hpos]
  · intro hidx
    constructor
    · intro hpre
      unfold toAssetStylePath
      dsimp only
      rw [hidx]
      dsimp only
      rw [hpre]
      rfl
    · intro hpre
      unfold toAssetStylePath
      dsimp only
      rw [hidx]
      dsimp only
      rw [hpre]
      rfl
  · intro hidx
    constructor
    · intro hpre
      unfold toAssetStylePath
      dsimp only
      rw [hidx]
      dsimp only
      rw [hpre]
      rfl
    · intro hpre
      unfold toAssetStylePath
      dsimp only
      rw [hidx]
      dsimp only
      rw [hpre]
      rfl

/-- Witness for C8's amended theorem: the specification's own example input,
with hypotheses discharged concretely. -/
theorem c8_normalization_rules_witness :
    toAssetStylePath "ModX/Content/Characters/Hero.uasset" "Base" =
      "ModX/Content/Characters/Hero.uasset" := by
  have h := (c8_normalization_rules "ModX/Content/Characters/Hero.uasset" "Base").1
    1 (by decide) (by decide)
  rw [h]
  decide

/-- Claim C7: when the container file exists and the AES key string fails to
parse, each of the three open operations (pak listing, pak unpacking, utoc
listing) fails with exactly the `InvalidAesKey` error kind — in particular
never with a generic I/O error. -/
theorem c7_invalid_aes_key_hard_failure (env : Env) (key : String) :
    (∀ p, env.fileExists p = true → env.parsePakAesKey key = none →
      Unpacker.getPakFileList env p (some key) =
        .error (.InvalidAesKey ("Invalid AES key format: " ++ key)))
    ∧ (∀ p outputDir (o : PakUnpackOptions), env.fileExists p = true →
      o.aes_key = some key → env.parsePakAesKey key = none →
      PakUnpacker.unpack env p outputDir o =
        .error (.InvalidAesKey ("Invalid AES key format: " ++ key)))
    ∧ (∀ p (o : UtocListOptions) e, env.fileExists p = true →
      o.aes_key = some key → env.parseUtocAesKey key = .error e →
      UtocLister.list env p o =
        .error (.InvalidAesKey ("Invalid AES key: " ++ e))) := by
  refine ⟨?_, ?_, ?_⟩
  · intro p hex hparse
    simp [Unpacker.getPakFileList, hex, hparse]
  · intro p outputDir o hex ho hparse
    simp [PakUnpacker.unpack, hex, ho, hparse]
  · intro p o e hex ho hparse
    simp [UtocLister.list, hex, ho, hparse]

/-- Witness for C7 with the malformed key `"zz"` in a concrete environment
whose parsers reject every key. -/
theorem c7_invalid_aes_key_hard_failure_witness :
    Unpacker.getPakFileList envKeys "Main.pak" (some "zz") =
      .error (.InvalidAesKey "Invalid AES key format: zz")
    ∧ PakUnpacker.unpack envKeys "Main.pak" "out"
        { aes_key := some "zz", stripPfx := "../../../", force := false,
          quiet := false, include_patterns := [] } =
        .error (.InvalidAesKey "Invalid AES key format: zz")
    ∧ UtocLister.list envKeys "Main.utoc" { aes_key := some "zz", json_format := false } =
        .error (.InvalidAesKey "Invalid AES key: invalid hex") := by
  refine ⟨?_, ?_, ?_⟩
  · exact (c7_invalid_aes_key_hard_failure envKeys "zz").1 "Main.pak" (by decide) (by decide)
  · exact (c7_invalid_aes_key_hard_failure envKeys "zz").2.1 "Main.pak" "out" _
      (by decide) rfl (by decide)
  · exact (c7_invalid_aes_key_hard_failure envKeys "zz").2.2 "Main.utoc" _ "invalid hex"
      (by decide) rfl (by decide)

/-- The outcome of `pakUnpackOpened`, projected to original paths, does not
depend on the options. -/
theorem pakUnpackOpened_originals_eq (env : Env) (pakPath outputDir : String)
    (o₁ o₂ : PakUnpackOptions) (key : Option Nat) :
    (pakUnpackOpened env pakPath outputDir o₁ key).map (List.map (·.originalPath)) =
      (pakUnpackOpened env pakPath outputDir o₂ key).map (List.map (·.originalPath)) := by
  unfold pakUnpackOpened
  cases hb : env.fopenOk pakPath with
  | false => rfl
  | true =>
    simp only [Bool.not_true, Bool.false_eq_true, if_false]
    cases hpf : env.pakFiles pakPath key with
    | error e => rfl
    | ok files => exact unpackFilesLoop_originals_eq env pakPath outputDir o₁ o₂ files

/-- Claim C10: the asset-path list returned by `unpack_pak` is the pak's
interior path list unchanged — the strip-prefix option never affects the
returned values (it only changes output locations), and on success the list
equals the raw index returned by the pak reader, wrapped as `AssetPath`s. -/
theorem c10_unpack_returns_original_paths (env : Env) (pakPath outputDir : String)
    (o : PakUnpackOptions) :
    (∀ s, Unpacker.unpackPak env pakPath outputDir { o with stripPfx := s } =
      Unpacker.unpackPak env pakPath outputDir o)
    ∧ (∀ l, Unpacker.unpackPak env pakPath outputDir o = .ok l →
      (o.aes_key = none ∧
        ∃ files, env.pakFiles pakPath none = .ok files ∧ l = files.map AssetPath.new)
      ∨ (∃ s k files, o.aes_key = some s ∧ env.parsePakAesKey s = some k ∧
          env.pakFiles pakPath (some k) = .ok files ∧ l = files.map AssetPath.new)) := by
  constructor
  · intro s
    unfold Unpacker.unpackPak PakUnpacker.unpack
    cases hfe : env.fileExists pakPath with
    | false => rfl
    | true =>
      simp only [Bool.not_true, Bool.false_eq_true, if_false]
      cases ho : o.aes_key with
      | none =>
        dsimp only
        exact pakUnpackOpened_originals_eq env pakPath outputDir _ o none
      | some sk =>
        dsimp only
        cases hp : env.parsePakAesKey sk with
        | none => rfl
        | some k =>
          exact pakUnpackOpened_originals_eq env pakPath outputDir _ o (some k)
  · intro l hok
    unfold Unpacker.unpackPak PakUnpacker.unpack at hok
    cases hfe : env.fileExists pakPath with
    | false => rw [hfe] at hok; cases hok
    | true =>
      rw [hfe] at hok
      simp only [Bool.not_true, Bool.false_eq_true, if_false] at hok
      cases ho : o.aes_key with
      | none =>
        rw [ho] at hok
        dsimp only at hok
        unfold pakUnpackOpened at hok
        cases hb : env.fopenOk pakPath with
        | false => rw [hb] at hok; cases hok
        | true =>
          rw [hb] at hok
          simp only [Bool.not_true, Bool.false_eq_true, if_false] at hok
          cases hpf : env.pakFiles pakPath none with
          | error e => rw [hpf] at hok; cases hok
          | ok files =>
            rw [hpf] at hok
            dsimp only at hok
            cases hl : unpackFilesLoop env pakPath outputDir o files with
            | error e => rw [hl] at hok; cases hok
            | ok ufs =>
              rw [hl] at hok
              simp only [Except.map] at hok
              cases hok
              exact Or.inl ⟨rfl, files, rfl,
                unpackFilesLoop_ok_map env pakPath outputDir o hl⟩
      | some sk =>
        rw [ho] at hok
        dsimp only at hok
        cases hp : env.parsePakAesKey sk with
        | none => rw [hp] at hok; cases hok
        | some k =>
          rw [hp] at hok
          dsimp only at hok
          unfold pakUnpackOpened at hok
          cases hb : env.fopenOk pakPath with
          | false => rw [hb] at hok; cases hok
          | true =>
            rw [hb] at hok
            simp only [Bool.not_true, Bool.false_eq_true, if_false] at hok
            cases hpf : env.pakFiles pakPath (some k) with
            | error e => rw [hpf] at hok; cases hok
            | ok files =>
              rw [hpf] at hok
              dsimp only at hok
              cases hl : unpackFilesLoop env pakPath outputDir o files with
              | error e => rw [hl] at hok; cases hok
              | ok ufs =>
                rw [hl] at hok
                simp only [Except.map] at hok
                cases hok
                exact Or.inr ⟨sk, k, files, rfl, hp, hpf,
                  unpackFilesLoop_ok_map env pakPath outputDir o hl⟩

/-- Witness for C10 on a concrete single-pak environment: a different
strip-prefix yields the identical returned list, and the returned list is the
raw pak index wrapped as `AssetPath`s. -/
theorem c10_unpack_returns_original_paths_witness :
    Unpacker.unpackPak envPakStrip "Solo.pak" "out"
        { aes_key := none, stripPfx := "zz", force := false, quiet := false,
          include_patterns := [] } =
      Unpacker.unpackPak envPakStrip "Solo.pak" "out"
        { aes_key := none, stripPfx := "../../../", force := false, quiet := false,
          include_patterns := [] }
    ∧ (((none : Option String) = none ∧
        ∃ files, envPakStrip.pakFiles "Solo.pak" none = .ok files ∧
          [AssetPath.new "../../../Game/X.uasset", AssetPath.new "Other.bin"] =
            files.map AssetPath.new)
      ∨ (∃ s k files, (none : Option String) = some s ∧
          envPakStrip.parsePakAesKey s = some k ∧
          envPakStrip.pakFiles "Solo.pak" (some k) = .ok files ∧
          [AssetPath.new "../../../Game/X.uasset", AssetPath.new "Other.bin"] =
            files.map AssetPath.new)) := by
  constructor
  · exact (c10_unpack_returns_original_paths envPakStrip "Solo.pak" "out"
      { aes_key := none, stripPfx := "../../../", force := false, quiet := false,
        include_patterns := [] }).1 "zz"
  · exact (c10_unpack_returns_original_paths envPakStrip "Solo.pak" "out"
      { aes_key := none, stripPfx := "../../../", force := false, quiet := false,
        include_patterns := [] }).2
      [AssetPath.new "../../../Game/X.uasset", AssetPath.new "Other.bin"] (by decide)

/-- Claim C3: under a resolved key set, the utoc list operation returns
exactly the chunk-carried interior paths that pass the fixed asset-extension
allow-list, sorted and duplicate-free; and on the specification's example
chunks it returns `["/Game/A.uasset", "/Game/B.json"]`. -/
theorem c3_utoc_listing_filtered_sorted_dedup (env : Env) (utocPath : String)
    (o : UtocListOptions) (keys : List Nat) (chunks : List Chunk)
    (hex : env.fileExists utocPath = true)
    (hkeys : (o.aes_key = none ∧ keys = []) ∨
      (∃ s k, o.aes_key = some s ∧ env.parseUtocAesKey s = .ok k ∧ keys = [k]))
    (hopen : env.iostoreOpen utocPath keys = .ok chunks) :
    UtocLister.list env utocPath o =
      .ok ((sortedDedup (collectAssetPaths chunks)).map AssetPath.new)
    ∧ List.Sorted (· ≤ ·) (sortedDedup (collectAssetPaths chunks))
    ∧ (sortedDedup (collectAssetPaths chunks)).Nodup
    ∧ (∀ x, x ∈ sortedDedup (collectAssetPaths chunks) ↔
        ∃ c ∈ chunks, c.path = some x ∧ UtocLister.isAssetFile x = true)
    ∧ UtocLister.list envUtocExample "root/Main.utoc"
        { aes_key := none, json_format := false } =
      .ok [AssetPath.new "/Game/A.uasset", AssetPath.new "/Game/B.json"] := by
  refine ⟨?_, sortedDedup_sorted _, sortedDedup_nodup _,
    fun x => mem_sortedDedup.trans mem_collectAssetPaths, by decide⟩
  rcases hkeys with ⟨hnone, hkeq⟩ | ⟨s, k, hsome, hparse, hkeq⟩
  · subst hkeq
    simp [UtocLister.list, hex, hnone, utocListOpened, hopen]
  · subst hkeq
    simp [UtocLister.list, hex, hsome, hparse, utocListOpened, hopen]

/-- Witness for C3 on the specification's example chunks: the duplicate is
collapsed, the non-asset and pathless chunks are dropped, and the result is
sorted and duplicate-free. -/
theorem c3_utoc_listing_witness :
    UtocLister.list envUtocExample "root/Main.utoc"
        { aes_key := none, json_format := false } =
      .ok [AssetPath.new "/Game/A.uasset", AssetPath.new "/Game/B.json"]
    ∧ List.Sorted (· ≤ ·) ["/Game/A.uasset", "/Game/B.json"]
    ∧ (["/Game/A.uasset", "/Game/B.json"] : List String).Nodup := by
  have h := c3_utoc_listing_filtered_sorted_dedup envUtocExample "root/Main.utoc"
    { aes_key := none, json_format := false } []
    [⟨"c1", some "/Game/A.uasset"⟩, ⟨"c2", some "/Game/A.uasset"⟩,
     ⟨"c3", some "/Game/B.json"⟩]
    (by decide) (Or.inl ⟨rfl, rfl⟩) (by decide)
  have heval : sortedDedup (collectAssetPaths
      [⟨"c1", some "/Game/A.uasset"⟩, ⟨"c2", some "/Game/A.uasset"⟩,
       ⟨"c3", some "/Game/B.json"⟩]) = ["/Game/A.uasset", "/Game/B.json"] := by
    decide
  refine ⟨?_, ?_, ?_⟩
  · rw [h.1, heval]
    rfl
  · have h2 := h.2.1
    rw [heval] at h2
    exact h2
  · have h2 := h.2.2.1
    rw [heval] at h2
    exact h2

/-- Claim C5, counterexample to the claim as stated: the discovery filter of
`extract_asset_paths_from_archive` (`src/lib.rs`) compares extensions
case-sensitively, so the regular file `X.PAK` — whose extension matches `pak`
case-insensitively — is skipped there, while the folder-scan discovery
collects it. -/
theorem c5_archive_discovery_case_sensitive :
    extensionOf "X.PAK" = some "PAK"
    ∧ eqIgnoreAsciiCase "PAK" "pak" = true
    ∧ libPakFilesOf [⟨"X.PAK", true⟩] = []
    ∧ pyPakFilesOf [⟨"X.PAK", true⟩] = ["X.PAK"] := by
  refine ⟨?_, ?_, ?_, ?_⟩ <;> decide

/-- Claim C5, amended: in the folder-scan discovery
(`extract_pak_asset_map_from_folder`), every regular file whose extension
matches `pak`/`utoc` case-insensitively becomes a unit and every collected
unit arises from such a file; in the archive-path discovery
(`extract_asset_paths_from_archive`) the comparison is exact (`pak`/`utoc`
only, case-sensitive). -/
theorem c5_discovery_extension_matching (entries : List WalkEntry) :
    (∀ e ∈ entries, e.isFile = true → ∀ x, extensionOf e.path = some x →
      (eqIgnoreAsciiCase x "pak" = true → e.path ∈ pyPakFilesOf entries)
      ∧ (eqIgnoreAsciiCase x "utoc" = true → e.path ∈ pyUtocFilesOf entries))
    ∧ (∀ pth ∈ pyPakFilesOf entries, ∃ e ∈ entries, e.path = pth ∧ e.isFile = true ∧
        ∃ x, extensionOf pth = some x ∧ eqIgnoreAsciiCase x "pak" = true)
    ∧ (∀ pth ∈ pyUtocFilesOf entries, ∃ e ∈ entries, e.path = pth ∧ e.isFile = true ∧
        ∃ x, extensionOf pth = some x ∧ eqIgnoreAsciiCase x "utoc" = true)
    ∧ (∀ e ∈ entries, e.isFile = true → extensionOf e.path = some "pak" →
        e.path ∈ libPakFilesOf entries)
    ∧ (∀ pth ∈ libPakFilesOf entries, ∃ e ∈ entries, e.path = pth ∧ e.isFile = true ∧
        extensionOf pth = some "pak")
    ∧ (∀ e ∈ entries, e.isFile = true → extensionOf e.path = some "utoc" →
        e.path ∈ libUtocFilesOf entries)
    ∧ (∀ pth ∈ libUtocFilesOf entries, ∃ e ∈ entries, e.path = pth ∧ e.isFile = true ∧
        extensionOf pth = some "utoc") := by
  refine ⟨?_, ?_, ?_, ?_, ?_, ?_, ?_⟩
  · intro e he hfile x hx
    constructor
    · intro hmatch
      rw [pyPakFilesOf, List.mem_filterMap]
      exact ⟨e, he, by rw [hfile]; simp [hx, hmatch]⟩
    · intro hmatch
      have hlx : asciiLower x = "utoc" := by
        have h1 : (asciiLower x == asciiLower "utoc") = true := hmatch
        simpa using h1
      have hnpak : eqIgnoreAsciiCase x "pak" = false := by
        rw [eqIgnoreAsciiCase, hlx]
        decide
      rw [pyUtocFilesOf, List.mem_filterMap]
      exact ⟨e, he, by rw [hfile]; simp [hx, hmatch, hnpak]⟩
  · intro pth hmem
    rw [pyPakFilesOf, List.mem_filterMap] at hmem
    obtain ⟨e, he, hf⟩ := hmem
    cases hfile : e.isFile with
    | false => rw [hfile] at hf; cases hf
    | true =>
      rw [hfile, if_pos (show (true = true) from rfl)] at hf
      cases hx : extensionOf e.path with
      | none => rw [hx] at hf; cases hf
      | some x =>
        rw [hx] at hf
        dsimp only at hf
        by_cases hm : eqIgnoreAsciiCase x "pak" = true
        · rw [if_pos hm] at hf
          cases hf
          exact ⟨e, he, rfl, hfile, x, hx, hm⟩
        · rw [if_neg hm] at hf; cases hf
  · intro pth hmem
    rw [pyUtocFilesOf, List.mem_filterMap] at hmem
    obtain ⟨e, he, hf⟩ := hmem
    cases hfile : e.isFile with
    | false => rw [hfile] at hf; cases hf
    | true =>
      rw [hfile, if_pos (show (true = true) from rfl)] at hf
      cases hx : extensionOf e.path with
      | none => rw [hx] at hf; cases hf
      | some x =>
        rw [hx] at hf
        dsimp only at hf
        by_cases hm : eqIgnoreAsciiCase x "pak" = true
        · rw [if_pos hm] at hf; cases hf
        · rw [if_neg hm] at hf
          by_cases hu : eqIgnoreAsciiCase x "utoc" = true
          · rw [if_pos hu] at hf
            cases hf
            exact ⟨e, he, rfl, hfile, x, hx, hu⟩
          · rw [if_neg hu] at hf; cases hf
  · intro e he hfile hx
    rw [libPakFilesOf, List.mem_filterMap]
    exact ⟨e, he, by rw [if_pos (by rw [hfile, hx]; rfl)]⟩
  · intro pth hmem
    rw [libPakFilesOf, List.mem_filterMap] at hmem
    obtain ⟨e, he, hf⟩ := hmem
    by_cases hc : (e.isFile && ((extensionOf e.path).map (fun x => x == "pak")).getD false) = true
    · rw [if_pos hc] at hf
      cases hf
      have hfile : e.isFile = true := by
        cases hfe : e.isFile
        · rw [hfe] at hc; simp at hc
        · rfl
      have hgetd : ((extensionOf e.path).map (fun x => x == "pak")).getD false = true := by
        rw [hfile] at hc; simpa using hc
      cases hx : extensionOf e.path with
      | none => rw [hx] at hgetd; cases hgetd
      | some x =>
        rw [hx] at hgetd
        have hxp : x = "pak" := by simpa using hgetd
        exact ⟨e, he, rfl, hfile, by rw [hxp]⟩
    · rw [if_neg hc] at hf; cases hf
  · intro e he hfile hx
    rw [libUtocFilesOf, List.mem_filterMap]
    exact ⟨e, he, by rw [if_pos (by rw [hfile, hx]; rfl)]⟩
  · intro pth hmem
    rw [libUtocFilesOf, List.mem_filterMap] at hmem
    obtain ⟨e, he, hf⟩ := hmem
    by_cases hc : (e.isFile && ((extensionOf e.path).map (fun x => x == "utoc")).getD false) = true
    · rw [if_pos hc] at hf
      cases hf
      have hfile : e.isFile = true := by
        cases hfe : e.isFile
        · rw [hfe] at hc; simp at hc
        · rfl
      have hgetd : ((extensionOf e.path).map (fun x => x == "utoc")).getD false = true := by
        rw [hfile] at hc; simpa using hc
      cases hx : extensionOf e.path with
      | none => rw [hx] at hgetd; cases hgetd
      | some x =>
        rw [hx] at hgetd
        have hxu : x = "utoc" := by simpa using hgetd
        exact ⟨e, he, rfl, hfile, by rw [hxu]⟩
    · rw [if_neg hc] at hf; cases hf

/-- Witness for C5's amended theorem: a mixed-case `PAK`, a lowercase `utoc`
and an unrelated file, discovered per the two filters. -/
theorem c5_discovery_extension_matching_witness :
    "d/Mod.PAK" ∈ pyPakFilesOf
      [⟨"d/Mod.PAK", true⟩, ⟨"d/Mod.utoc", true⟩, ⟨"d/readme.txt", true⟩]
    ∧ "d/Mod.utoc" ∈ pyUtocFilesOf
      [⟨"d/Mod.PAK", true⟩, ⟨"d/Mod.utoc", true⟩, ⟨"d/readme.txt", true⟩]
    ∧ "d/Mod.utoc" ∈ libUtocFilesOf
      [⟨"d/Mod.PAK", true⟩, ⟨"d/Mod.utoc", true⟩, ⟨"d/readme.txt", true⟩] := by
  refine ⟨?_, ?_, ?_⟩
  · exact ((c5_discovery_extension_matching _).1 ⟨"d/Mod.PAK", true⟩ (by decide)
      rfl "PAK" (by decide)).1 (by decide)
  · exact ((c5_discovery_extension_matching _).1 ⟨"d/Mod.utoc", true⟩ (by decide)
      rfl "utoc" (by decide)).2 (by decide)
  · exact (c5_discovery_extension_matching _).2.2.2.2.2.1 ⟨"d/Mod.utoc", true⟩
      (by decide) rfl (by decide)

/-- A utoc unit whose listing succeeds empty, when no sibling pak exists,
leaves the state unchanged. -/
theorem processUtocUnit_eq_no_pak (env : Env) (aesKey : Option String)
    (st : OrchState) (u : String)
    (hls : UtocLister.list env u { aes_key := aesKey, json_format := false } = .ok [])
    (hex : env.fileExists (withExtension u "pak") = false) :
    processUtocUnit env aesKey st u = st := by
  unfold processUtocUnit
  rw [hls]
  dsimp only
  rw [hex]
  rfl

/-- Claim C1: for a bundle whose utoc listing is empty, the orchestrator
substitutes the sibling pak's full interior listing (no asset-extension
filter) under the bundle's `.utoc` key when that listing is non-empty, and
the substitution path never raises an error; amended per the code: when the
fallback listing is empty, fails, or the sibling pak is missing, the bundle
is omitted from the result map instead of being recorded with zero assets. -/
theorem c1_utoc_empty_fallback_to_pak (env : Env) (folderPath : String)
    (aesKey : Option String) (u : String) (l₁ l₂ : List String)
    (hsplit : pyUtocFilesOf (env.walk folderPath) = l₁ ++ u :: l₂)
    (hkeys : ∀ v ∈ l₁ ++ l₂,
      (fileStemOf v).getD "unknown" ≠ (fileStemOf u).getD "unknown")
    (hls : UtocLister.list env u { aes_key := aesKey, json_format := false } = .ok []) :
    (∀ pakAssets : List AssetPath,
      env.fileExists (withExtension u "pak") = true →
      Unpacker.getPakFileList env (withExtension u "pak") aesKey = .ok pakAssets →
      (pakAssets.map (·.val)).isEmpty = false →
      lookupMap (PyUnpacker.extractPakAssetMapFromFolder env folderPath aesKey).map
          (((fileStemOf u).getD "unknown") ++ ".utoc") =
        some (pakAssets.map (·.val)))
    ∧ (env.fileExists (withExtension u "pak") = true →
      Unpacker.getPakFileList env (withExtension u "pak") aesKey = .ok [] →
      lookupMap (PyUnpacker.extractPakAssetMapFromFolder env folderPath aesKey).map
          (((fileStemOf u).getD "unknown") ++ ".utoc") = none)
    ∧ (∀ e : UeToolError,
      env.fileExists (withExtension u "pak") = true →
      Unpacker.getPakFileList env (withExtension u "pak") aesKey = .error e →
      lookupMap (PyUnpacker.extractPakAssetMapFromFolder env folderPath aesKey).map
          (((fileStemOf u).getD "unknown") ++ ".utoc") = none)
    ∧ (env.fileExists (withExtension u "pak") = false →
      lookupMap (PyUnpacker.extractPakAssetMapFromFolder env folderPath aesKey).map
          (((fileStemOf u).getD "unknown") ++ ".utoc") = none)
    ∧ (∀ p (files : List String), env.fileExists p = true → env.fopenOk p = true →
      aesKey = none → env.pakFiles p none = .ok files →
      Unpacker.getPakFileList env p aesKey = .ok (files.map AssetPath.new))
    ∧ (∀ p s k (files : List String), env.fileExists p = true → env.fopenOk p = true →
      aesKey = some s → env.parsePakAesKey s = some k →
      env.pakFiles p (some k) = .ok files →
      Unpacker.getPakFileList env p aesKey = .ok (files.map AssetPath.new)) := by
  have hextract : PyUnpacker.extractPakAssetMapFromFolder env folderPath aesKey =
      l₂.foldl (processUtocUnit env aesKey)
        (processUtocUnit env aesKey
          (l₁.foldl (processUtocUnit env aesKey)
            ((pyPakFilesOf (env.walk folderPath)).foldl
              (processPakUnit env aesKey (pyUtocFilesOf (env.walk folderPath)))
              ⟨[], []⟩))
          u) := by
    unfold PyUnpacker.extractPakAssetMapFromFolder
    dsimp only
    rw [hsplit, List.foldl_append, List.foldl_cons]
  have hm1 : ∀ v ∈ l₁, ((fileStemOf v).getD "unknown") ++ ".utoc" ≠
      ((fileStemOf u).getD "unknown") ++ ".utoc" :=
    fun v hv he => hkeys v (List.mem_append_left l₂ hv) (append_utoc_inj he)
  have hm2 : ∀ v ∈ l₂, ((fileStemOf v).getD "unknown") ++ ".utoc" ≠
      ((fileStemOf u).getD "unknown") ++ ".utoc" :=
    fun v hv he => hkeys v (List.mem_append_right l₁ hv) (append_utoc_inj he)
  have hbase : lookupMap
      (l₁.foldl (processUtocUnit env aesKey)
        ((pyPakFilesOf (env.walk folderPath)).foldl
          (processPakUnit env aesKey (pyUtocFilesOf (env.walk folderPath)))
          ⟨[], []⟩)).map
      (((fileStemOf u).getD "unknown") ++ ".utoc") = none := by
    rw [foldl_processUtocUnit_lookup_ne env aesKey l₁ _ hm1,
      foldl_processPakUnit_lookup_ne env aesKey _
        (pyPakFilesOf (env.walk folderPath)) ⟨[], []⟩
        (fun v _ => append_pak_ne_append_utoc _ _)]
    rfl
  refine ⟨?_, ?_, ?_, ?_, ?_, ?_⟩
  · intro pakAssets hex hpak hne
    rw [hextract, foldl_processUtocUnit_lookup_ne env aesKey l₂ _ hm2,
      processUtocUnit_eq_fallback_nonempty env aesKey _ u hls hex hpak hne]
    exact lookupMap_insertMap_self _ _ _
  · intro hex hpak
    rw [hextract, foldl_processUtocUnit_lookup_ne env aesKey l₂ _ hm2,
      processUtocUnit_eq_fallback_empty env aesKey _ u hls hex hpak]
    exact hbase
  · intro e hex hpak
    rw [hextract, foldl_processUtocUnit_lookup_ne env aesKey l₂ _ hm2,
      processUtocUnit_eq_fallback_error env aesKey _ u hls hex hpak]
    exact hbase
  · intro hex
    rw [hextract, foldl_processUtocUnit_lookup_ne env aesKey l₂ _ hm2,
      processUtocUnit_eq_no_pak env aesKey _ u hls hex]
    exact hbase
  · intro p files hex hopen haes hpf
    subst haes
    simp [Unpacker.getPakFileList, hex, pakListOpened, hopen, hpf]
  · intro p s k files hex hopen haes hparse hpf
    subst haes
    simp [Unpacker.getPakFileList, hex, pakListOpened, hopen, hparse, hpf]

/-- Claim C1, counterexample to the claim as stated: a `Main.utoc`/`Main.pak`
bundle where both the utoc listing and the pak fallback are empty is NOT
recorded in the result map (the claim demands an entry with zero assets). -/
theorem c1_empty_fallback_bundle_omitted :
    UtocLister.list envBundleEmpty "root/Main.utoc"
        { aes_key := none, json_format := false } = .ok []
    ∧ Unpacker.getPakFileList envBundleEmpty "root/Main.pak" none = .ok []
    ∧ envBundleEmpty.fileExists "root/Main.pak" = true
    ∧ lookupMap (PyUnpacker.extractPakAssetMapFromFolder envBundleEmpty
        "root" none).map "Main.utoc" = none
    ∧ (PyUnpacker.extractPakAssetMapFromFolder envBundleEmpty "root" none).map = [] := by
  refine ⟨?_, ?_, ?_, ?_, ?_⟩ <;> decide

/-- Witness for C1's amended theorem: the non-empty pak fallback of
`envBundleFallback` is substituted verbatim (raw `.bin` entries, unfiltered)
under the `Main.utoc` key. -/
theorem c1_utoc_empty_fallback_to_pak_witness :
    lookupMap (PyUnpacker.extractPakAssetMapFromFolder envBundleFallback
        "root" none).map "Main.utoc" = some ["Raw/A.bin", "Raw/B.bin"] := by
  have h := (c1_utoc_empty_fallback_to_pak envBundleFallback "root" none
    "root/Main.utoc" [] [] (by decide) (by intro v hv; cases hv) (by decide)).1
    [AssetPath.new "Raw/A.bin", AssetPath.new "Raw/B.bin"]
    (by decide) (by decide) (by decide)
  exact h

/-- Every successful utoc listing is sorted and duplicate-free. -/
theorem utocList_ok_sorted_nodup (env : Env) (utocPath : String)
    (o : UtocListOptions) {assets : List AssetPath}
    (h : UtocLister.list env utocPath o = .ok assets) :
    List.Sorted (· ≤ ·) (assets.map (·.val)) ∧ (assets.map (·.val)).Nodup := by
  have hshape : ∃ s : List String, assets = (sortedDedup s).map AssetPath.new := by
    unfold UtocLister.list at h
    cases hfe : env.fileExists utocPath with
    | false => rw [hfe] at h; cases h
    | true =>
      rw [hfe] at h
      simp only [Bool.not_true, Bool.false_eq_true, if_false] at h
      cases ho : o.aes_key with
      | none =>
        rw [ho] at h
        unfold utocListOpened at h
        cases hio : env.iostoreOpen utocPath [] with
        | error e => rw [hio] at h; cases h
        | ok chunks =>
          rw [hio] at h
          cases h
          exact ⟨collectAssetPaths chunks, rfl⟩
      | some s =>
        rw [ho] at h
        dsimp only at h
        cases hp : env.parseUtocAesKey s with
        | error e => rw [hp] at h; cases h
        | ok k =>
          rw [hp] at h
          unfold utocListOpened at h
          dsimp only at h
          cases hio : env.iostoreOpen utocPath [k] with
          | error e => rw [hio] at h; cases h
          | ok chunks =>
            rw [hio] at h
            cases h
            exact ⟨collectAssetPaths chunks, rfl⟩
  obtain ⟨s, hs⟩ := hshape
  subst hs
  have hmm : ((sortedDedup s).map AssetPath.new).map (·.val) = sortedDedup s := by
    rw [List.map_map]
    exact List.map_id _
  rw [hmm]
  exact ⟨sortedDedup_sorted s, sortedDedup_nodup s⟩

/-- Claim C2: for a bundle pair whose utoc listing yields at least one asset,
the stored result under the bundle's `.utoc` key is exactly that
sorted-deduplicated utoc listing, and the paired pak file is never opened
during asset-path collection. -/
theorem c2_bundle_utoc_authoritative (env : Env) (folderPath : String)
    (aesKey : Option String) (u p n : String) (l₁ l₂ : List String)
    (hsplit : pyUtocFilesOf (env.walk folderPath) = l₁ ++ u :: l₂)
    (hkeys : ∀ v ∈ l₁ ++ l₂,
      (fileStemOf v).getD "unknown" ≠ (fileStemOf u).getD "unknown")
    (hwe : ∀ v ∈ l₁ ++ l₂, withExtension v "pak" ≠ p)
    (hstemu : fileStemOf u = some n)
    (hpmem : p ∈ pyPakFilesOf (env.walk folderPath))
    (hstemp : fileStemOf p = some n)
    {assets : List AssetPath}
    (hls : UtocLister.list env u { aes_key := aesKey, json_format := false } = .ok assets)
    (hne : (assets.map (·.val)).isEmpty = false) :
    lookupMap (PyUnpacker.extractPakAssetMapFromFolder env folderPath aesKey).map
        (n ++ ".utoc") = some (assets.map (·.val))
    ∧ p ∉ (PyUnpacker.extractPakAssetMapFromFolder env folderPath aesKey).openedPaks
    ∧ List.Sorted (· ≤ ·) (assets.map (·.val))
    ∧ (assets.map (·.val)).Nodup := by
  have hkeyu : ((fileStemOf u).getD "unknown") = n := by rw [hstemu]; rfl
  have hextract : PyUnpacker.extractPakAssetMapFromFolder env folderPath aesKey =
      l₂.foldl (processUtocUnit env aesKey)
        (processUtocUnit env aesKey
          (l₁.foldl (processUtocUnit env aesKey)
            ((pyPakFilesOf (env.walk folderPath)).foldl
              (processPakUnit env aesKey (pyUtocFilesOf (env.walk folderPath)))
              ⟨[], []⟩))
          u) := by
    unfold PyUnpacker.extractPakAssetMapFromFolder
    dsimp only
    rw [hsplit, List.foldl_append, List.foldl_cons]
  have hm2 : ∀ v ∈ l₂, ((fileStemOf v).getD "unknown") ++ ".utoc" ≠ n ++ ".utoc" := by
    intro v hv he
    exact hkeys v (List.mem_append_right l₁ hv) (by rw [hkeyu]; exact append_utoc_inj he)
  refine ⟨?_, ?_, (utocList_ok_sorted_nodup env u _ hls).1,
    (utocList_ok_sorted_nodup env u _ hls).2⟩
  · rw [hextract, foldl_processUtocUnit_lookup_ne env aesKey l₂ _ hm2,
      processUtocUnit_eq_of_ok_nonempty env aesKey _ u hls hne]
    dsimp only
    rw [hkeyu]
    exact lookupMap_insertMap_self _ _ _
  · have humem : u ∈ pyUtocFilesOf (env.walk folderPath) := by
      rw [hsplit]
      exact List.mem_append_right l₁ (List.mem_cons_self u l₂)
    have hmatch : hasMatchingUtoc (pyUtocFilesOf (env.walk folderPath)) n = true := by
      rw [hasMatchingUtoc, List.any_eq_true]
      refine ⟨u, humem, ?_⟩
      rw [hstemu]
      simp
    have hpak : p ∉ ((pyPakFilesOf (env.walk folderPath)).foldl
        (processPakUnit env aesKey (pyUtocFilesOf (env.walk folderPath)))
        ⟨[], []⟩).openedPaks := by
      refine foldl_processPakUnit_opened_not_mem env aesKey _ _ _ (by simp) ?_
      intro v _ hvp
      subst hvp
      rw [hstemp]
      exact hmatch
    rw [hextract]
    refine foldl_processUtocUnit_opened_not_mem env aesKey l₂ _ ?_
      (fun v hv => hwe v (List.mem_append_right l₁ hv))
    rw [processUtocUnit_eq_of_ok_nonempty env aesKey _ u hls hne]
    dsimp only
    exact foldl_processUtocUnit_opened_not_mem env aesKey l₁ _ hpak
      (fun v hv => hwe v (List.mem_append_left l₂ hv))

/-- Witness for C2 on `envBundleLive`: the utoc listing (filtered, sorted,
deduplicated) is stored under `Main.utoc` and the paired `root/Main.pak` is
never opened. -/
theorem c2_bundle_utoc_authoritative_witness :
    lookupMap (PyUnpacker.extractPakAssetMapFromFolder envBundleLive
        "root" none).map "Main.utoc" = some ["/Game/A.uasset", "/Game/B.json"]
    ∧ "root/Main.pak" ∉
      (PyUnpacker.extractPakAssetMapFromFolder envBundleLive "root" none).openedPaks := by
  have h := @c2_bundle_utoc_authoritative envBundleLive "root" none
    "root/Main.utoc" "root/Main.pak" "Main" [] []
    (by decide) (by intro v hv; cases hv) (by intro v hv; cases hv)
    (by decide) (by decide) (by decide)
    [AssetPath.new "/Game/A.uasset", AssetPath.new "/Game/B.json"]
    (by decide) (by decide)
  exact ⟨h.1, h.2.1⟩

/-- Claim C6: a single solo-pak unit's extraction failure never aborts the
batch — the orchestrator (total in this model) simply omits that unit's
entry, and each unit's entry is determined solely by its own outcome;
amended per the code: a unit whose extraction succeeds with a NON-EMPTY
asset list has its entry present, while a failed unit and also a unit whose
extraction succeeds with an empty list contribute no entry. -/
theorem c6_unit_failure_isolated (env : Env) (folderPath : String)
    (aesKey : Option String) (q : String) (l₁ l₂ : List String)
    (hsplit : pyPakFilesOf (env.walk folderPath) = l₁ ++ q :: l₂)
    (hsolo : hasMatchingUtoc (pyUtocFilesOf (env.walk folderPath))
      ((fileStemOf q).getD "unknown") = false)
    (hkeys : ∀ v ∈ l₁ ++ l₂,
      (fileStemOf v).getD "unknown" ≠ (fileStemOf q).getD "unknown") :
    (∀ e : UeToolError,
      Unpacker.unpackPak env q tempDirPath (soloPakOptions aesKey) = .error e →
      lookupMap (PyUnpacker.extractPakAssetMapFromFolder env folderPath aesKey).map
        (((fileStemOf q).getD "unknown") ++ ".pak") = none)
    ∧ (∀ assets : List AssetPath,
      Unpacker.unpackPak env q tempDirPath (soloPakOptions aesKey) = .ok assets →
      (assets.map (·.val)).isEmpty = false →
      lookupMap (PyUnpacker.extractPakAssetMapFromFolder env folderPath aesKey).map
        (((fileStemOf q).getD "unknown") ++ ".pak") = some (assets.map (·.val)))
    ∧ (Unpacker.unpackPak env q tempDirPath (soloPakOptions aesKey) = .ok [] →
      lookupMap (PyUnpacker.extractPakAssetMapFromFolder env folderPath aesKey).map
        (((fileStemOf q).getD "unknown") ++ ".pak") = none) := by
  have hextract : PyUnpacker.extractPakAssetMapFromFolder env folderPath aesKey =
      (pyUtocFilesOf (env.walk folderPath)).foldl (processUtocUnit env aesKey)
        (l₂.foldl (processPakUnit env aesKey (pyUtocFilesOf (env.walk folderPath)))
          (processPakUnit env aesKey (pyUtocFilesOf (env.walk folderPath))
            (l₁.foldl (processPakUnit env aesKey (pyUtocFilesOf (env.walk folderPath)))
              ⟨[], []⟩)
            q)) := by
    unfold PyUnpacker.extractPakAssetMapFromFolder
    dsimp only
    rw [hsplit, List.foldl_append, List.foldl_cons]
  have hm1 : ∀ v ∈ l₁, ((fileStemOf v).getD "unknown") ++ ".pak" ≠
      ((fileStemOf q).getD "unknown") ++ ".pak" :=
    fun v hv he => hkeys v (List.mem_append_left l₂ hv) (append_pak_inj he)
  have hm2 : ∀ v ∈ l₂, ((fileStemOf v).getD "unknown") ++ ".pak" ≠
      ((fileStemOf q).getD "unknown") ++ ".pak" :=
    fun v hv he => hkeys v (List.mem_append_right l₁ hv) (append_pak_inj he)
  have hutoc : ∀ v ∈ pyUtocFilesOf (env.walk folderPath),
      ((fileStemOf v).getD "unknown") ++ ".utoc" ≠
        ((fileStemOf q).getD "unknown") ++ ".pak" :=
    fun v _ he => append_pak_ne_append_utoc _ _ he.symm
  have hbase : lookupMap
      ((l₁.foldl (processPakUnit env aesKey (pyUtocFilesOf (env.walk folderPath)))
        ⟨[], []⟩)).map
      (((fileStemOf q).getD "unknown") ++ ".pak") = none := by
    rw [foldl_processPakUnit_lookup_ne env aesKey _ l₁ ⟨[], []⟩ hm1]
    rfl
  refine ⟨?_, ?_, ?_⟩
  · intro e hup
    rw [hextract,
      foldl_processUtocUnit_lookup_ne env aesKey _ _ hutoc,
      foldl_processPakUnit_lookup_ne env aesKey _ l₂ _ hm2,
      processPakUnit_eq_of_error env aesKey _ _ q hsolo hup]
    exact hbase
  · intro assets hup hne
    rw [hextract,
      foldl_processUtocUnit_lookup_ne env aesKey _ _ hutoc,
      foldl_processPakUnit_lookup_ne env aesKey _ l₂ _ hm2,
      processPakUnit_eq_of_ok_nonempty env aesKey _ _ q hsolo hup hne]
    exact lookupMap_insertMap_self _ _ _
  · intro hup
    rw [hextract,
      foldl_processUtocUnit_lookup_ne env aesKey _ _ hutoc,
      foldl_processPakUnit_lookup_ne env aesKey _ l₂ _ hm2,
      processPakUnit_eq_of_ok_empty env aesKey _ _ q hsolo hup]
    exact hbase

/-- Claim C6, counterexample to the claim as stated: in a batch `A.pak`,
`B.pak` (corrupt), `C.pak` (opens fine but lists zero files), the batch
completes and isolates `B`'s failure — but `C`, which did NOT fail, also has
no entry, contradicting "every other unit's entry is present". -/
theorem c6_successful_empty_unit_omitted :
    Unpacker.unpackPak envBatch "root/B.pak" tempDirPath (soloPakOptions none) =
      .error (.PakError "Failed to read PAK file: corrupt pak")
    ∧ Unpacker.unpackPak envBatch "root/C.pak" tempDirPath (soloPakOptions none) = .ok []
    ∧ lookupMap (PyUnpacker.extractPakAssetMapFromFolder envBatch "root" none).map
        "A.pak" = some ["x.uasset"]
    ∧ lookupMap (PyUnpacker.extractPakAssetMapFromFolder envBatch "root" none).map
        "B.pak" = none
    ∧ lookupMap (PyUnpacker.extractPakAssetMapFromFolder envBatch "root" none).map
        "C.pak" = none := by
  refine ⟨?_, ?_, ?_, ?_, ?_⟩ <;> decide

/-- Witness for C6's amended theorem on `envBatch`: the failed unit `B.pak`
contributes no entry while its healthy non-empty sibling `A.pak` is present. -/
theorem c6_unit_failure_isolated_witness :
    lookupMap (PyUnpacker.extractPakAssetMapFromFolder envBatch "root" none).map
      "A.pak" = some ["x.uasset"]
    ∧ lookupMap (PyUnpacker.extractPakAssetMapFromFolder envBatch "root" none).map
      "B.pak" = none := by
  constructor
  · exact (c6_unit_failure_isolated envBatch "root" none "root/A.pak"
      [] ["root/B.pak", "root/C.pak"] (by decide) (by decide) (by decide)).2.1
      [AssetPath.new "x.uasset"] (by decide) (by decide)
  · exact (c6_unit_failure_isolated envBatch "root" none "root/B.pak"
      ["root/A.pak"] ["root/C.pak"] (by decide) (by decide) (by decide)).1
      (.PakError "Failed to read PAK file: corrupt pak") (by decide)

end UeTools
